import Mathlib

/-!
Verification of the Console3 terminal core against its specification.

This file gives a shallow embedding, in Lean 4, of the data structures and
operations of the Console3 repository that the specification talks about:

* `Console3.RingBuffer`      — src/Core/RingBuffer.h (SPSC byte queue);
* `Console3.TerminalBuffer`  — src/Core/TerminalBuffer.{h,cpp} (cell grid);
* `Console3.Session`         — src/Core/Session.{h,cpp} (per-tab composition);
* the PTY reader loops       — PtySession::IoThreadProc and IoThread::ThreadProc;
* the key translator         — src/UI/TerminalView.cpp, SendKeyToTerminal;
* session (de)serialization  — Session::Serialize / Session::Deserialize.

Machine integers (size_t) are modelled as `Nat` with explicit reduction
modulo 2^64 wherever the C++ code performs unsigned arithmetic that can
wrap.  C++ `int` values are modelled as `Int`.  Byte strings
(std::string contents) are modelled as `List Nat` of byte values.
-/

namespace Console3

/-- 2^64, the modulus of C++ `size_t` arithmetic on the 64-bit target. -/
def W64 : Nat := 18446744073709551616

end Console3

namespace Console3

/-- C++ unsigned subtraction `a - b` on `size_t` values `a b < 2^64`:
the result is `(a + 2^64 - b) mod 2^64`. -/
def wsub (a b : Nat) : Nat := (a + (W64 - b)) % W64

end Console3

namespace Console3

/-! ## Ring buffer — src/Core/RingBuffer.h

`RingBuffer<char>`: `m_capacity` (power of two), `m_mask = m_capacity - 1`,
`m_buffer` (a C array of `m_capacity` bytes, modelled as a total function
from indices to byte values), and the two counters `m_head`, `m_tail`
(free-running `size_t` values, wrapping mod 2^64). -/
structure RingBuffer where
  capacity : Nat
  mask : Nat
  buf : Nat → Nat
  head : Nat
  tail : Nat

end Console3

namespace Console3.RingBuffer

/-- One `n |= n >> c` smearing step of `NextPowerOfTwo`. -/
def orShift (x c : Nat) : Nat := x ||| (x >>> c)

end Console3.RingBuffer

namespace Console3.RingBuffer

/-- `NextPowerOfTwo` (RingBuffer.h lines 178-189): `n--`, six `n |= n >> c`
smearing steps (c = 1, 2, 4, 8, 16, 32), then `n + 1`; all on a 64-bit
`size_t`, so the final `+ 1` wraps mod 2^64 exactly as the C++ does. -/
def NextPowerOfTwo (n : Nat) : Nat :=
  if n = 0 then 1
  else
    (orShift (orShift (orShift (orShift (orShift (orShift (n - 1) 1) 2) 4) 8) 16) 32
      + 1) % W64

end Console3.RingBuffer

namespace Console3.RingBuffer

/-- The constructor: capacity rounded up to a power of two, zeroed storage
(`std::vector` value-initializes), counters at 0. -/
def init (capacity : Nat) : RingBuffer :=
  { capacity := NextPowerOfTwo capacity
    mask := NextPowerOfTwo capacity - 1
    buf := fun _ => 0
    head := 0
    tail := 0 }

end Console3.RingBuffer

namespace Console3.RingBuffer

/-- `AvailableToRead(head, tail) = head - tail` (unsigned). -/
def AvailableToRead (head tail : Nat) : Nat := wsub head tail

end Console3.RingBuffer

namespace Console3.RingBuffer

/-- `AvailableToWrite(head, tail) = (m_capacity - 1) - (head - tail)` (unsigned). -/
def AvailableToWrite (s : RingBuffer) (head tail : Nat) : Nat :=
  wsub (s.capacity - 1) (wsub head tail)

end Console3.RingBuffer

namespace Console3.RingBuffer

/-- `memcpy(&buf[pos], src, len)` on the backing array modelled as a function. -/
def copyAt (f : Nat → Nat) (pos : Nat) (src : List Nat) : Nat → Nat :=
  fun i => if pos ≤ i ∧ i < pos + src.length then src.getD (i - pos) 0 else f i

end Console3.RingBuffer

namespace Console3.RingBuffer

/-- `RingBuffer::Write` (lines 42-67): clips to the free space, copies in at
most two chunks around the wrap point, then publishes `head + toWrite`.
Returns the new state and the number of elements accepted. -/
def Write (s : RingBuffer) (data : List Nat) : RingBuffer × Nat :=
  let avail := AvailableToWrite s s.head s.tail
  let toWrite := min data.length avail
  if toWrite = 0 then (s, 0)
  else
    let headIndex := s.head &&& s.mask
    let firstChunk := min toWrite (s.capacity - headIndex)
    let secondChunk := toWrite - firstChunk
    let buf1 := copyAt s.buf headIndex (data.take firstChunk)
    let buf2 :=
      if 0 < secondChunk then copyAt buf1 0 ((data.drop firstChunk).take secondChunk)
      else buf1
    ({ s with buf := buf2, head := (s.head + toWrite) % W64 }, toWrite)

end Console3.RingBuffer

namespace Console3.RingBuffer

/-- `RingBuffer::Read` (lines 73-98): copies out at most two chunks, then
publishes `tail + toRead`.  Returns the new state and the bytes read. -/
def Read (s : RingBuffer) (maxLength : Nat) : RingBuffer × List Nat :=
  let avail := AvailableToRead s.head s.tail
  let toRead := min maxLength avail
  if toRead = 0 then (s, [])
  else
    let tailIndex := s.tail &&& s.mask
    let firstChunk := min toRead (s.capacity - tailIndex)
    let secondChunk := toRead - firstChunk
    let out :=
      (List.range firstChunk).map (fun j => s.buf (tailIndex + j)) ++
      (List.range secondChunk).map (fun j => s.buf j)
    ({ s with tail := (s.tail + toRead) % W64 }, out)

end Console3.RingBuffer

namespace Console3.RingBuffer

/-- `RingBuffer::Peek` (lines 104-125): like `Read` but does not consume. -/
def Peek (s : RingBuffer) (maxLength : Nat) : List Nat :=
  let avail := AvailableToRead s.head s.tail
  let toPeek := min maxLength avail
  if toPeek = 0 then []
  else
    let tailIndex := s.tail &&& s.mask
    let firstChunk := min toPeek (s.capacity - tailIndex)
    let secondChunk := toPeek - firstChunk
    (List.range firstChunk).map (fun j => s.buf (tailIndex + j)) ++
    (List.range secondChunk).map (fun j => s.buf j)

end Console3.RingBuffer

namespace Console3.RingBuffer

/-- `RingBuffer::Skip` (lines 130-141). -/
def Skip (s : RingBuffer) (count : Nat) : RingBuffer × Nat :=
  let avail := AvailableToRead s.head s.tail
  let toSkip := min count avail
  if 0 < toSkip then ({ s with tail := (s.tail + toSkip) % W64 }, toSkip)
  else (s, toSkip)

end Console3.RingBuffer

namespace Console3.RingBuffer

/-- `RingBuffer::Size` (lines 144-148). -/
def Size (s : RingBuffer) : Nat := AvailableToRead s.head s.tail

end Console3.RingBuffer

namespace Console3.RingBuffer

/-- `RingBuffer::Available` (lines 151-155). -/
def Available (s : RingBuffer) : Nat := AvailableToWrite s s.head s.tail

end Console3.RingBuffer

namespace Console3.RingBuffer

/-- `RingBuffer::Capacity` (lines 164-167): one slot reserved. -/
def Capacity (s : RingBuffer) : Nat := s.capacity - 1

end Console3.RingBuffer

namespace Console3.RingBuffer

/-- `RingBuffer::Clear` (lines 171-174). -/
def Clear (s : RingBuffer) : RingBuffer := { s with head := 0, tail := 0 }

end Console3.RingBuffer

namespace Console3.RingBuffer

/-- Well-formedness of a ring state: capacity is `2^k` for some `k ≤ 63`
(any capacity the constructor can actually produce for an allocatable
request), the mask matches, the tail counter is a reduced `size_t`, and the
head counter is `tail + n` (mod 2^64) for the logical fill level `n`,
which leaves the one reserved slot free. -/
def WFp (s : RingBuffer) (k n : Nat) : Prop :=
  k ≤ 63 ∧ s.capacity = 2 ^ k ∧ s.mask = s.capacity - 1 ∧ s.tail < W64 ∧
    n < s.capacity ∧ s.head = (s.tail + n) % W64

end Console3.RingBuffer

namespace Console3.RingBuffer

/-- The logical FIFO content of the ring: `n` bytes starting at the tail
position, wrapping at `capacity`. -/
def queue (s : RingBuffer) : List Nat :=
  (List.range (Size s)).map (fun i => s.buf ((s.tail + i) % s.capacity))

end Console3.RingBuffer

namespace Console3.RingBuffer

/-! Operation sequences over a ring buffer, for the spec's "after any
sequence of operations" properties. -/
inductive RingOp where
  | write (data : List Nat)
  | read (maxLength : Nat)
  | peek (maxLength : Nat)
  | skip (count : Nat)
  | clear

end Console3.RingBuffer

namespace Console3.RingBuffer

/-- Run a list of operations; also return the concatenation of all bytes
submitted to `Write` and of all bytes returned by `Read`. -/
def runOps (s : RingBuffer) : List RingOp → RingBuffer × List Nat × List Nat
  | [] => (s, [], [])
  | RingOp.write d :: rest =>
    let step := runOps (Write s d).1 rest
    (step.1, d ++ step.2.1, step.2.2)
  | RingOp.read m :: rest =>
    let p := Read s m
    let step := runOps p.1 rest
    (step.1, step.2.1, p.2 ++ step.2.2)
  | RingOp.peek _ :: rest => runOps s rest
  | RingOp.skip c :: rest => runOps (Skip s c).1 rest
  | RingOp.clear :: rest => runOps (Clear s) rest

end Console3.RingBuffer

namespace Console3.RingBuffer

/-- "No write exceeds the free capacity": every `write` in the sequence fits
into `Available()` at the moment it runs. -/
def validOps (s : RingBuffer) : List RingOp → Bool
  | [] => true
  | RingOp.write d :: rest =>
    decide (d.length ≤ Available s) && validOps (Write s d).1 rest
  | RingOp.read m :: rest => validOps (Read s m).1 rest
  | RingOp.peek _ :: rest => validOps s rest
  | RingOp.skip c :: rest => validOps (Skip s c).1 rest
  | RingOp.clear :: rest => validOps (Clear s) rest

end Console3.RingBuffer

namespace Console3.RingBuffer

/-- Only `write` and `read` operations (the interleavings claim C4 ranges
over). -/
def rwOnly : List RingOp → Bool
  | [] => true
  | RingOp.write _ :: rest => rwOnly rest
  | RingOp.read _ :: rest => rwOnly rest
  | _ => false

end Console3.RingBuffer

namespace Console3.RingBuffer

/-- The spec's "requested capacity rounded up to a power of two":
the least power of two that is at least `n` (`Nat.clog 2` is the
ceiling base-2 logarithm). -/
def specRoundPow2 (n : Nat) : Nat := 2 ^ Nat.clog 2 n

end Console3.RingBuffer

namespace Console3.RingBuffer

/-- A concrete write/read interleaving for the C4 witness. -/
def opsC4 : List RingOp :=
  [RingOp.write [1, 2, 3], RingOp.read 2, RingOp.write [4, 5], RingOp.read 10]

end Console3.RingBuffer

namespace Console3.RingBuffer

/-- A concrete operation sequence exercising all five operations, for the
C5 witness. -/
def opsC5 : List RingOp :=
  [RingOp.write [1, 2, 3, 4, 5], RingOp.peek 2, RingOp.read 1, RingOp.skip 1,
   RingOp.write [9], RingOp.clear, RingOp.write [7, 8]]

end Console3.RingBuffer

namespace Console3

/-! ## Cell grid — src/Core/TerminalBuffer.{h,cpp}

C++ `int` coordinates are modelled as `Int`; rows are `List Cell`;
`std::deque<Row> m_scrollback` is a `List` with the front at the head. -/
/-- `CellAttributes` (TerminalBuffer.h lines 19-29); `underline` is a two-bit
field holding 0..3. -/
structure CellAttributes where
  bold : Bool := false
  italic : Bool := false
  underline : Nat := 0
  blink : Bool := false
  reverse : Bool := false
  strikethrough : Bool := false
  conceal : Bool := false
  deriving DecidableEq, Repr

end Console3

namespace Console3

/-- `CellColor` (TerminalBuffer.h lines 32-70). -/
structure CellColor where
  r : Nat := 0
  g : Nat := 0
  b : Nat := 0
  flags : Nat := 0
  deriving DecidableEq, Repr

end Console3

namespace Console3.CellColor

def FLAG_DEFAULT : Nat := 1

end Console3.CellColor

namespace Console3.CellColor

def FLAG_INDEXED : Nat := 2

end Console3.CellColor

namespace Console3.CellColor

def Default : CellColor := { flags := FLAG_DEFAULT }

end Console3.CellColor

namespace Console3.CellColor

def Rgb (r g b : Nat) : CellColor := { r := r, g := g, b := b, flags := 0 }

end Console3.CellColor

namespace Console3.CellColor

def Indexed (index : Nat) : CellColor := { r := index, flags := FLAG_INDEXED }

end Console3.CellColor

namespace Console3.CellColor

def IsDefault (c : CellColor) : Bool := (c.flags &&& FLAG_DEFAULT) != 0

end Console3.CellColor

namespace Console3

/-- `Cell` (TerminalBuffer.h lines 73-97): primary codepoint (default space),
up to three combining codepoints, colors, attributes, width. -/
structure Cell where
  charCode : Nat := 32
  combining0 : Nat := 0
  combining1 : Nat := 0
  combining2 : Nat := 0
  fg : CellColor := CellColor.Default
  bg : CellColor := CellColor.Default
  attrs : CellAttributes := {}
  width : Nat := 1
  deriving DecidableEq, Repr

end Console3

namespace Console3

/-- `Cell::Clear` resets every field to its default, so it yields the default
cell regardless of the input. -/
def Cell.Clear (_ : Cell) : Cell := {}

end Console3

namespace Console3

/-- The static `s_emptyCell` (a default-constructed `Cell`). -/
def s_emptyCell : Cell := {}

end Console3

namespace Console3

/-- `TerminalBufferConfig` (TerminalBuffer.h lines 103-107). -/
structure TerminalBufferConfig where
  rows : Int := 25
  cols : Int := 80
  scrollbackLines : Nat := 10000

end Console3

namespace Console3

structure TerminalBuffer where
  rows : Int
  cols : Int
  maxScrollback : Nat
  screen : List (List Cell)
  scrollback : List (List Cell)
  dirty : List Bool
  deriving DecidableEq, Repr

end Console3

namespace Console3.TerminalBuffer

/-- `CreateEmptyRow` (TerminalBuffer.cpp lines 404-410): `m_cols` cleared
cells. -/
def CreateEmptyRow (tb : TerminalBuffer) : List Cell :=
  List.replicate tb.cols.toNat s_emptyCell

end Console3.TerminalBuffer

namespace Console3.TerminalBuffer

/-- `TrimScrollback` (lines 412-416): pop from the back until the size is at
most `m_maxScrollback`. -/
def TrimScrollback (sb : List (List Cell)) (maxScrollback : Nat) : List (List Cell) :=
  sb.take maxScrollback

end Console3.TerminalBuffer

namespace Console3.TerminalBuffer

/-- The constructor (lines 15-32): throws (`none`) on non-positive
dimensions, else all rows empty and all dirty bits set. -/
def create (config : TerminalBufferConfig) : Option TerminalBuffer :=
  if config.rows ≤ 0 ∨ config.cols ≤ 0 then none
  else some
    { rows := config.rows
      cols := config.cols
      maxScrollback := config.scrollbackLines
      screen := List.replicate config.rows.toNat
        (List.replicate config.cols.toNat s_emptyCell)
      scrollback := []
      dirty := List.replicate config.rows.toNat true }

end Console3.TerminalBuffer

namespace Console3.TerminalBuffer

/-- The row-shrinking loop in `Resize` (lines 52-57): `m_rows - rows` times,
move the top screen row to the scrollback front (skipping when the screen is
empty). -/
def shrinkRowsLoop : Nat → List (List Cell) × List (List Cell) →
    List (List Cell) × List (List Cell)
  | 0, p => p
  | k + 1, (scr, sb) =>
    match scr with
    | [] => shrinkRowsLoop k ([], sb)
    | r :: rest => shrinkRowsLoop k (rest, r :: sb)

end Console3.TerminalBuffer

namespace Console3.TerminalBuffer

/-- `std::vector::resize(c)` on a row: truncate or pad with
default-constructed cells. -/
def resizeRow (row : List Cell) (c : Nat) : List Cell :=
  row.take c ++ List.replicate (c - row.length) s_emptyCell

end Console3.TerminalBuffer

namespace Console3.TerminalBuffer

/-- `std::vector<bool>::resize(n, true)`. -/
def resizeBools (l : List Bool) (n : Nat) : List Bool :=
  l.take n ++ List.replicate (n - l.length) true

end Console3.TerminalBuffer

namespace Console3.TerminalBuffer

/-- `MarkAllDirty` (lines 261-263). -/
def MarkAllDirty (tb : TerminalBuffer) : TerminalBuffer :=
  { tb with dirty := tb.dirty.map (fun _ => true) }

end Console3.TerminalBuffer

namespace Console3.TerminalBuffer

/-- `MarkDirty` (lines 247-251). -/
def MarkDirty (tb : TerminalBuffer) (row : Int) : TerminalBuffer :=
  if 0 ≤ row ∧ row < tb.rows then { tb with dirty := tb.dirty.set row.toNat true }
  else tb

end Console3.TerminalBuffer

namespace Console3.TerminalBuffer

/-- The `if (rows != m_rows)` block of `Resize` (lines 44-61): grow by
appending empty rows (built with the old `m_cols`), or shrink by moving the
evicted top rows to the scrollback front and trimming. -/
def resizeRowsStep (tb : TerminalBuffer) (rows : Int) : TerminalBuffer :=
  if rows ≠ tb.rows then
    if tb.rows < rows then
      { tb with
          screen := tb.screen ++
            List.replicate (rows - tb.rows).toNat (CreateEmptyRow tb)
          rows := rows }
    else
      let p := shrinkRowsLoop (tb.rows - rows).toNat (tb.screen, tb.scrollback)
      { tb with
          screen := p.1
          scrollback := TrimScrollback p.2 tb.maxScrollback
          rows := rows }
  else tb

end Console3.TerminalBuffer

namespace Console3.TerminalBuffer

/-- The `if (cols != m_cols)` block of `Resize` (lines 64-75): pad or
truncate every screen row to the new width. -/
def resizeColsStep (tb : TerminalBuffer) (cols : Int) : TerminalBuffer :=
  if cols ≠ tb.cols then
    { tb with
        screen := tb.screen.map (fun row => resizeRow row cols.toNat)
        cols := cols }
  else tb

end Console3.TerminalBuffer

namespace Console3.TerminalBuffer

/-- `TerminalBuffer::Resize` (lines 38-80): early return on non-positive
dimensions; handle row-count changes, then column-count changes, then
`m_dirty.resize(m_rows, true)` followed by `MarkAllDirty()`. -/
def Resize (tb : TerminalBuffer) (rows cols : Int) : TerminalBuffer :=
  if rows ≤ 0 ∨ cols ≤ 0 then tb
  else
    let tb2 := resizeColsStep (resizeRowsStep tb rows) cols
    MarkAllDirty { tb2 with dirty := resizeBools tb2.dirty tb2.rows.toNat }

end Console3.TerminalBuffer

namespace Console3.TerminalBuffer

/-- The mutable `Cell& GetCell(int, int)` (lines 86-90): `ValidateRow` /
`ValidateCol` throw `std::out_of_range` outside the screen (`none` here);
in range it designates the addressed cell. -/
def GetCellRef (tb : TerminalBuffer) (row col : Int) : Option Cell :=
  if row < 0 ∨ tb.rows ≤ row then none
  else if col < 0 ∨ tb.cols ≤ col then none
  else some ((tb.screen.getD row.toNat []).getD col.toNat s_emptyCell)

end Console3.TerminalBuffer

namespace Console3.TerminalBuffer

/-- The const `GetCell` (lines 92-97): out-of-range reads return the shared
sentinel `s_emptyCell`. -/
def GetCell (tb : TerminalBuffer) (row col : Int) : Cell :=
  if row < 0 ∨ tb.rows ≤ row ∨ col < 0 ∨ tb.cols ≤ col then s_emptyCell
  else (tb.screen.getD row.toNat []).getD col.toNat s_emptyCell

end Console3.TerminalBuffer

namespace Console3.TerminalBuffer

/-- `SetCell` (lines 99-104): silent no-op out of range. -/
def SetCell (tb : TerminalBuffer) (row col : Int) (cell : Cell) : TerminalBuffer :=
  if 0 ≤ row ∧ row < tb.rows ∧ 0 ≤ col ∧ col < tb.cols then
    let newRow := (tb.screen.getD row.toNat []).set col.toNat cell
    MarkDirty { tb with screen := tb.screen.set row.toNat newRow } row
  else tb

end Console3.TerminalBuffer

namespace Console3.TerminalBuffer

/-- `SetChar` (lines 106-114): overwrite codepoint and width (a `uint8_t`
cast), zero the combining slots, keep colors/attributes; silent no-op out of
range. -/
def SetChar (tb : TerminalBuffer) (row col : Int) (charCode : Nat) (width : Int) :
    TerminalBuffer :=
  if 0 ≤ row ∧ row < tb.rows ∧ 0 ≤ col ∧ col < tb.cols then
    let old := (tb.screen.getD row.toNat []).getD col.toNat s_emptyCell
    let cell := { old with
        charCode := charCode
        width := (width % 256).toNat
        combining0 := 0, combining1 := 0, combining2 := 0 }
    let newRow := (tb.screen.getD row.toNat []).set col.toNat cell
    MarkDirty { tb with screen := tb.screen.set row.toNat newRow } row
  else tb

end Console3.TerminalBuffer

namespace Console3.TerminalBuffer

/-- `ClearCell` (lines 116-121): silent no-op out of range. -/
def ClearCell (tb : TerminalBuffer) (row col : Int) : TerminalBuffer :=
  if 0 ≤ row ∧ row < tb.rows ∧ 0 ≤ col ∧ col < tb.cols then
    let newRow := (tb.screen.getD row.toNat []).set col.toNat
      (((tb.screen.getD row.toNat []).getD col.toNat s_emptyCell).Clear)
    MarkDirty { tb with screen := tb.screen.set row.toNat newRow } row
  else tb

end Console3.TerminalBuffer

namespace Console3.TerminalBuffer

/-- `ClearRange` (lines 123-133): early return when the row is out of range;
clamp the column range, clear those cells, and mark the row dirty. -/
def ClearRange (tb : TerminalBuffer) (row startCol endCol : Int) : TerminalBuffer :=
  if row < 0 ∨ tb.rows ≤ row then tb
  else
    let s := max 0 startCol
    let e := min tb.cols endCol
    let newRow := (tb.screen.getD row.toNat []).mapIdx
      (fun i c => if s ≤ (i : Int) ∧ (i : Int) < e then Cell.Clear c else c)
    MarkDirty { tb with screen := tb.screen.set row.toNat newRow } row

end Console3.TerminalBuffer

namespace Console3.TerminalBuffer

/-- `GetScrollbackSize` (lines 223-225). -/
def GetScrollbackSize (tb : TerminalBuffer) : Nat := tb.scrollback.length

end Console3.TerminalBuffer

namespace Console3.TerminalBuffer

/-- `static_cast<char>` of the computed byte expressions in `GetRowText`. -/
def charByte (v : Nat) : Nat := v % 256

end Console3.TerminalBuffer

namespace Console3.TerminalBuffer

/-- The UTF-32 → UTF-8 encoding in `GetRowText` (lines 310-325). -/
def utf8Encode (cp : Nat) : List Nat :=
  if cp < 128 then [charByte cp]
  else if cp < 2048 then
    [charByte (192 ||| (cp >>> 6)), charByte (128 ||| (cp &&& 63))]
  else if cp < 65536 then
    [charByte (224 ||| (cp >>> 12)), charByte (128 ||| ((cp >>> 6) &&& 63)),
     charByte (128 ||| (cp &&& 63))]
  else
    [charByte (240 ||| (cp >>> 18)), charByte (128 ||| ((cp >>> 12) &&& 63)),
     charByte (128 ||| ((cp >>> 6) &&& 63)), charByte (128 ||| (cp &&& 63))]

end Console3.TerminalBuffer

namespace Console3.TerminalBuffer

/-- The combining characters of a cell, stopping at the first zero slot
(lines 328-330). -/
def combiningList (c : Cell) : List Nat :=
  if c.combining0 = 0 then []
  else if c.combining1 = 0 then [c.combining0]
  else if c.combining2 = 0 then [c.combining0, c.combining1]
  else [c.combining0, c.combining1, c.combining2]

end Console3.TerminalBuffer

namespace Console3.TerminalBuffer

/-- The bytes one cell contributes to `GetRowText`: its codepoint followed
by its combining characters, all UTF-8 encoded. -/
def cellText (c : Cell) : List Nat :=
  utf8Encode c.charCode ++ ((combiningList c).map utf8Encode).flatten

end Console3.TerminalBuffer

namespace Console3.TerminalBuffer

/-- The trailing-space trim loop of `GetRowText` (lines 350-352). -/
def trimTrailingSpaces (l : List Nat) : List Nat :=
  (l.reverse.dropWhile (fun b => b == 32)).reverse

end Console3.TerminalBuffer

namespace Console3.TerminalBuffer

/-- `GetRowText` (lines 295-355): empty for an out-of-range row; otherwise
the row's cells with width-0 continuation cells skipped, UTF-8 encoded, and
trailing spaces trimmed. -/
def GetRowText (tb : TerminalBuffer) (row : Int) : List Nat :=
  if row < 0 ∨ tb.rows ≤ row then []
  else
    trimTrailingSpaces
      ((tb.screen.getD row.toNat []).foldl
        (fun acc c => if c.width = 0 then acc else acc ++ cellText c) [])

end Console3.TerminalBuffer

namespace Console3.TerminalBuffer

/-- `std::clamp` on `int`. -/
def iclamp (v lo hi : Int) : Int :=
  if v < lo then lo else if hi < v then hi else v

end Console3.TerminalBuffer

namespace Console3.TerminalBuffer

/-- The row loop of `GetRegionText` (lines 364-379), iterating `k` rows
starting at `row`: append the row text when nonempty, and a newline while
`row < endRow`. -/
def regionAux (tb : TerminalBuffer) (endRow : Int) : Int → Nat → List Nat
  | _, 0 => []
  | row, k + 1 =>
    let rowText := GetRowText tb row
    (if rowText = [] then [] else rowText) ++
      (if row < endRow then [10] else []) ++
      regionAux tb endRow (row + 1) k

end Console3.TerminalBuffer

namespace Console3.TerminalBuffer

/-- `GetRegionText` (lines 357-382): clamps the row bounds to the screen and
walks whole rows; the column parameters are computed into locals
(`colStart`, `colEnd`, lines 367-368) that the source never uses. -/
def GetRegionText (tb : TerminalBuffer) (startRow startCol endRow endCol : Int) :
    List Nat :=
  let sr := iclamp startRow 0 (tb.rows - 1)
  let er := iclamp endRow 0 (tb.rows - 1)
  regionAux tb er sr (er + 1 - sr).toNat

end Console3.TerminalBuffer

namespace Console3.TerminalBuffer

/-- `GetAllText` (lines 384-386). -/
def GetAllText (tb : TerminalBuffer) : List Nat :=
  GetRegionText tb 0 0 (tb.rows - 1) tb.cols

end Console3.TerminalBuffer

namespace Console3.TerminalBuffer

/-- `joinRows`: the spec's reading of `region_text` — the row texts of the
clamped row range joined with single newlines.  This is the spec-side
definition C10 compares `GetRegionText` against. -/
def joinRows : List (List Nat) → List Nat
  | [] => []
  | [x] => x
  | x :: y :: xs => x ++ 10 :: joinRows (y :: xs)

end Console3.TerminalBuffer

namespace Console3.TerminalBuffer

/-- Spec-side region extraction: `GetRowText` of every row in the clamped
range `[startRow, endRow]`, joined with newlines; no column dependence. -/
def regionTextRows (tb : TerminalBuffer) (startRow endRow : Int) : List Nat :=
  let sr := iclamp startRow 0 (tb.rows - 1)
  let er := iclamp endRow 0 (tb.rows - 1)
  joinRows ((List.range (er + 1 - sr).toNat).map
    (fun (i : Nat) => GetRowText tb (sr + (i : Int))))

end Console3.TerminalBuffer

namespace Console3.TerminalBuffer

/-- Structural well-formedness of a grid, as established by the constructor:
positive dimensions, exactly `rows` screen rows of exactly `cols` cells, and
a dirty bit per row. -/
def WF (tb : TerminalBuffer) : Prop :=
  1 ≤ tb.rows ∧ 1 ≤ tb.cols ∧ tb.screen.length = tb.rows.toNat ∧
    (∀ row ∈ tb.screen, row.length = tb.cols.toNat) ∧
    tb.dirty.length = tb.rows.toNat

end Console3.TerminalBuffer

namespace Console3

/-! ## VTerm wrapper types — src/Emulation/VTermWrapper.{h,cpp} -/
/-- `TermColor` (VTermWrapper.h). -/
structure TermColor where
  r : Nat := 0
  g : Nat := 0
  b : Nat := 0
  isDefault : Bool := true
  isIndexed : Bool := false
  paletteIndex : Nat := 0
  deriving DecidableEq, Repr

end Console3

namespace Console3

/-- `CellAttrs` (VTermWrapper.h): the wrapper-side attribute record. -/
structure CellAttrs where
  bold : Bool := false
  italic : Bool := false
  underline : Bool := false
  underlineStyle : Nat := 0
  blink : Bool := false
  reverse : Bool := false
  strikethrough : Bool := false
  conceal : Bool := false
  deriving DecidableEq, Repr

end Console3

namespace Console3

/-- `TermCell` (VTermWrapper.h): a parser-side cell as returned by
`VTermWrapper::GetCell` and by the scrollback-push conversion. -/
structure TermCell where
  chars : List Nat := []
  width : Nat := 1
  attrs : CellAttrs := {}
  fg : TermColor := {}
  bg : TermColor := {}
  deriving DecidableEq, Repr

end Console3

namespace Console3

/-- `TermProps` (VTermWrapper.h); only the title matters to the session. -/
structure TermProps where
  title : List Nat := []
  iconName : List Nat := []
  cursorVisible : Bool := true
  cursorBlink : Bool := true
  altScreen : Bool := false
  cursorShape : Nat := 0
  mouseMode : Int := 0
  deriving DecidableEq, Repr

end Console3

namespace Console3

/-! ## Session wiring — src/Core/Session.cpp (unnamed part_005)

`Session::Start` (lines 45-52) registers exactly two parser callbacks:
`SetDamageCallback` and `SetTermPropCallback`.  It never calls
`SetScrollbackPushCallback` (that setter has no caller anywhere in the
repository), so in `VTermWrapper::OnScrollbackPush` (VTermWrapper.cpp,
lines 1144-1168) the guard `self->m_scrollbackPushCallback` is false and
the converted row is dropped on the floor. -/
/-- One parser notification reaching the wrapper's static callbacks.  The
`damage` payload carries the parser's current cell view
(`VTermWrapper::GetCell`), which the session reads back. -/
inductive VTermEvent where
  | damage (startRow endRow startCol endCol : Int) (view : Int → Int → TermCell)
  | termProp (props : TermProps)
  | scrollbackPush (cells : List TermCell)

end Console3

namespace Console3

/-- The session state the wired callbacks touch: the grid, the cached
title, and the emitted title-change callback invocations. -/
structure SessionSt where
  buffer : TerminalBuffer
  title : List Nat
  titleEvents : List (List Nat)

end Console3

namespace Console3.Session

/-- The cell copy in `Session::OnVTermDamage` (lines 170-194): primary
codepoint (space when empty), up to three combining slots (later slots keep
their previous contents when the parser cell has fewer chars), colors with
the default-flag check, attributes (conceal is not copied; the underline
style is truncated to the two-bit field), and the width (a `uint8_t` cast). -/
def copyVTermCell (vt : TermCell) (old : Cell) : Cell :=
  { old with
      charCode := vt.chars.headD 32
      combining0 := if 1 < vt.chars.length then vt.chars.getD 1 0 else old.combining0
      combining1 := if 2 < vt.chars.length then vt.chars.getD 2 0 else old.combining1
      combining2 := if 3 < vt.chars.length then vt.chars.getD 3 0 else old.combining2
      fg := if vt.fg.isDefault then CellColor.Default
        else CellColor.Rgb vt.fg.r vt.fg.g vt.fg.b
      bg := if vt.bg.isDefault then CellColor.Default
        else CellColor.Rgb vt.bg.r vt.bg.g vt.bg.b
      attrs := { old.attrs with
          bold := vt.attrs.bold
          italic := vt.attrs.italic
          underline := vt.attrs.underlineStyle % 4
          blink := vt.attrs.blink
          reverse := vt.attrs.reverse
          strikethrough := vt.attrs.strikethrough }
      width := vt.width % 256 }

end Console3.Session

namespace Console3.Session

/-- The inner column loop of `OnVTermDamage`: `m_buffer->GetCell(row, col)`
is the mutable accessor, which throws (`none`) out of range. -/
def damageColLoop (view : Int → Int → TermCell) (row : Int) :
    TerminalBuffer → Int → Nat → Option TerminalBuffer
  | buffer, _, 0 => some buffer
  | buffer, col, k + 1 =>
    match TerminalBuffer.GetCellRef buffer row col with
    | none => none
    | some old =>
      let newCell := copyVTermCell (view row col) old
      let newRow := (buffer.screen.getD row.toNat []).set col.toNat newCell
      damageColLoop view row { buffer with screen := buffer.screen.set row.toNat newRow }
        (col + 1) k

end Console3.Session

namespace Console3.Session

/-- The outer row loop of `OnVTermDamage` (lines 166-197): copy each cell of
the rectangle, then `MarkDirty(row)`. -/
def damageRowsLoop (view : Int → Int → TermCell) (startCol endCol : Int) :
    TerminalBuffer → Int → Nat → Option TerminalBuffer
  | buffer, _, 0 => some buffer
  | buffer, row, k + 1 =>
    match damageColLoop view row buffer startCol (endCol - startCol).toNat with
    | none => none
    | some b2 =>
      damageRowsLoop view startCol endCol (TerminalBuffer.MarkDirty b2 row) (row + 1) k

end Console3.Session

namespace Console3.Session

/-- `Session::OnVTermDamage` (lines 162-198). -/
def OnVTermDamage (buffer : TerminalBuffer) (view : Int → Int → TermCell)
    (startRow endRow startCol endCol : Int) : Option TerminalBuffer :=
  damageRowsLoop view startCol endCol buffer startRow (endRow - startRow).toNat

end Console3.Session

namespace Console3.Session

/-- `Session::OnVTermPropChange` (lines 200-207): store and emit the title
only when it changed and is nonempty. -/
def OnVTermPropChange (s : SessionSt) (props : TermProps) : SessionSt :=
  if s.title ≠ props.title ∧ props.title ≠ [] then
    { s with title := props.title, titleEvents := s.titleEvents ++ [props.title] }
  else s

end Console3.Session

namespace Console3.Session

/-- Dispatch of one parser event through the callbacks `Session::Start`
registered.  A `scrollbackPush` event finds `m_scrollbackPushCallback`
unset (`Session::Start` never registers it), so the wrapper's
`OnScrollbackPush` drops the row and the session state is untouched. -/
def sessionStep (s : SessionSt) : VTermEvent → Option SessionSt
  | VTermEvent.damage sr er sc ec view =>
    match OnVTermDamage s.buffer view sr er sc ec with
    | none => none
    | some b => some { s with buffer := b }
  | VTermEvent.termProp props => some (OnVTermPropChange s props)
  | VTermEvent.scrollbackPush _ => some s

end Console3.Session

namespace Console3.Session

/-- A sequence of parser events dispatched in order (`none` once a damage
copy throws). -/
def sessionRun (s : SessionSt) : List VTermEvent → Option SessionSt
  | [] => some s
  | ev :: rest =>
    match sessionStep s ev with
    | none => none
    | some s2 => sessionRun s2 rest

end Console3.Session

namespace Console3.Session

/-- `Session::OnPtyOutput` (lines 146-151): a single `RingBuffer::Write`
whose return value (the number of bytes actually accepted) is discarded. -/
def OnPtyOutput (ring : RingBuffer) (data : List Nat) : RingBuffer :=
  (RingBuffer.Write ring data).1

end Console3.Session

namespace Console3

/-! ## PTY reader loops — PtySession::IoThreadProc and IoThread::ThreadProc -/
/-- One `ReadFile` outcome on the PTY output pipe: data (success,
`bytesRead = data.length`), end-of-file (success with zero bytes), or a
failure with a Win32 error code. -/
inductive ReadOutcome where
  | ok (data : List Nat)
  | eof
  | err (code : Nat)
  deriving DecidableEq, Repr

end Console3

namespace Console3

/-- `SessionState` (Session.h lines 20-24). -/
inductive SessionState where
  | Idle
  | Running
  | Exited
  deriving DecidableEq, Repr

end Console3

namespace Console3

/-- The session fields `OnPtyExit` touches. -/
structure SessionLifecycle where
  state : SessionState
  exitCode : Nat
  deriving DecidableEq, Repr

end Console3

namespace Console3

/-- `Session::OnPtyExit` (part_005 lines 153-160): store the code, move to
`Exited` (the exit callback fires with the same code). -/
def Session.OnPtyExit (_ : SessionLifecycle) (exitCode : Nat) : SessionLifecycle :=
  { state := SessionState.Exited, exitCode := exitCode }

end Console3

namespace Console3

/-- The `while (m_running)` loop of `PtySession::IoThreadProc`
(ShellDetector.cpp lines 621-638): dispatch nonempty reads to the output
callback; break on EOF or on ANY read failure, with no inspection of the
error code and no error callback (PtySession has none).  The result is the
list of dispatched chunks and whether the loop exited (an exhausted outcome
list models a thread still blocked inside `ReadFile`). -/
def ptyReaderLoop : List ReadOutcome → List (List Nat) × Bool
  | [] => ([], false)
  | ReadOutcome.ok d :: rest =>
    if d.length = 0 then ([], true)
    else
      let p := ptyReaderLoop rest
      (d :: p.1, p.2)
  | ReadOutcome.eof :: _ => ([], true)
  | ReadOutcome.err _ :: _ => ([], true)

end Console3

namespace Console3

/-- `STILL_ACTIVE` (259): what `GetExitCodeProcess` reports while the child
is still running. -/
def STILL_ACTIVE : Nat := 259

end Console3

namespace Console3

/-- The whole of `PtySession::IoThreadProc` (lines 618-651): run the read
loop, then — only if the loop exited — query the child's exit code and
invoke the exit callback when it is not `STILL_ACTIVE`.  `childExit` is the
child's actual exit code, or `none` while it is still running.  Returns the
output chunks and the exit-callback invocation (if any). -/
def ptyReaderRun (reads : List ReadOutcome) (childExit : Option Nat) :
    List (List Nat) × Option Nat :=
  let p := ptyReaderLoop reads
  (p.1,
    if p.2 then
      match childExit with
      | some code => if code ≠ STILL_ACTIVE then some code else none
      | none => none
    else none)

end Console3

namespace Console3

/-- The session lifecycle after the reader thread finishes: `OnPtyExit`
runs exactly when the exit callback fired. -/
def sessionAfterReader (s : SessionLifecycle) (reads : List ReadOutcome)
    (childExit : Option Nat) : SessionLifecycle :=
  match (ptyReaderRun reads childExit).2 with
  | some code => Session.OnPtyExit s code
  | none => s

end Console3

namespace Console3

/-- `IoThread::ThreadProc` (ShellDetector.h lines 214-283) — the separate
`IoThread` helper class, which no code in the repository instantiates: it
breaks silently on `ERROR_OPERATION_ABORTED` (995) and `ERROR_BROKEN_PIPE`
(109) and invokes its error callback for any other failure code.  Its
inner ring-write loop retries with a 100 µs sleep until every byte of a
chunk is accepted, so a dispatched chunk reaches the ring whole; the first
component lists those chunks, the second the error-callback invocation. -/
def ioThreadRun : List ReadOutcome → List (List Nat) × Option Nat
  | [] => ([], none)
  | ReadOutcome.ok d :: rest =>
    if d.length = 0 then ([], none)
    else
      let p := ioThreadRun rest
      (d :: p.1, p.2)
  | ReadOutcome.eof :: _ => ([], none)
  | ReadOutcome.err e :: _ =>
    if e = 995 ∨ e = 109 then ([], none) else ([], some e)

end Console3

namespace Console3

/-! ## Input translator — src/UI/TerminalView.cpp, SendKeyToTerminal
(lines 494-603).  Virtual-key codes are the Win32 values; the three
modifier flags model the `GetKeyState` reads; the result is the byte
sequence handed to the keyboard callback (`none` when nothing is sent). -/
def VK_UP : Nat := 38

end Console3

namespace Console3

def VK_DOWN : Nat := 40

end Console3

namespace Console3

def VK_RIGHT : Nat := 39

end Console3

namespace Console3

def VK_LEFT : Nat := 37

end Console3

namespace Console3

def VK_HOME : Nat := 36

end Console3

namespace Console3

def VK_END : Nat := 35

end Console3

namespace Console3

def VK_INSERT : Nat := 45

end Console3

namespace Console3

def VK_DELETE : Nat := 46

end Console3

namespace Console3

def VK_PRIOR : Nat := 33

end Console3

namespace Console3

def VK_NEXT : Nat := 34

end Console3

namespace Console3

def VK_ESCAPE : Nat := 27

end Console3

namespace Console3

def VK_TAB : Nat := 9

end Console3

namespace Console3

def VK_OEM_4 : Nat := 219

end Console3

namespace Console3

/-- `TerminalView::SendKeyToTerminal`: Ctrl+letter and Ctrl+[ shortcuts,
Alt+letter, then the virtual-key switch with the CSI modifier parameter
`1 + shift + 2*alt + 4*ctrl`. -/
def SendKeyToTerminal (vkey : Nat) (keyDown ctrl alt shift : Bool) :
    Option (List Nat) :=
  if !keyDown then none
  else if ctrl && !alt && decide (65 ≤ vkey ∧ vkey ≤ 90) then
    some [vkey - 65 + 1]
  else if ctrl && !alt && decide (vkey = VK_OEM_4) then
    some [27]
  else if alt && !ctrl && decide (65 ≤ vkey ∧ vkey ≤ 90) then
    some [27, if shift then vkey else vkey + 32]
  else
    let modParam := 1 + (if shift then 1 else 0) + (if alt then 2 else 0) +
      (if ctrl then 4 else 0)
    let hasModifier := 1 < modParam
    if vkey = VK_UP then
      some (if hasModifier then [27, 91, 49, 59, 48 + modParam, 65] else [27, 91, 65])
    else if vkey = VK_DOWN then
      some (if hasModifier then [27, 91, 49, 59, 48 + modParam, 66] else [27, 91, 66])
    else if vkey = VK_RIGHT then
      some (if hasModifier then [27, 91, 49, 59, 48 + modParam, 67] else [27, 91, 67])
    else if vkey = VK_LEFT then
      some (if hasModifier then [27, 91, 49, 59, 48 + modParam, 68] else [27, 91, 68])
    else if vkey = VK_HOME then
      some (if hasModifier then [27, 91, 49, 59, 48 + modParam, 72] else [27, 91, 72])
    else if vkey = VK_END then
      some (if hasModifier then [27, 91, 49, 59, 48 + modParam, 70] else [27, 91, 70])
    else if vkey = VK_INSERT then some [27, 91, 50, 126]
    else if vkey = VK_DELETE then some [27, 91, 51, 126]
    else if vkey = VK_PRIOR then some [27, 91, 53, 126]
    else if vkey = VK_NEXT then some [27, 91, 54, 126]
    else if vkey = 112 then some [27, 79, 80]
    else if vkey = 113 then some [27, 79, 81]
    else if vkey = 114 then some [27, 79, 82]
    else if vkey = 115 then some [27, 79, 83]
    else if vkey = 116 then some [27, 91, 49, 53, 126]
    else if vkey = 117 then some [27, 91, 49, 55, 126]
    else if vkey = 118 then some [27, 91, 49, 56, 126]
    else if vkey = 119 then some [27, 91, 49, 57, 126]
    else if vkey = 120 then some [27, 91, 50, 48, 126]
    else if vkey = 121 then some [27, 91, 50, 49, 126]
    else if vkey = 122 then some [27, 91, 50, 51, 126]
    else if vkey = 123 then some [27, 91, 50, 52, 126]
    else if vkey = VK_ESCAPE then some [27]
    else if vkey = VK_TAB then (if shift then some [27, 91, 90] else none)
    else none

end Console3

namespace Console3

/-! ## Session (de)serialization — Session::Serialize / Session::Deserialize
(unnamed part_005, lines 245-303)

`std::string` contents are byte lists.  The `SessionConfig` string fields
(`std::wstring` in the source) are modelled by their UTF-8 byte images: the
`WideToUtf8` / `Utf8ToWide` pair used at the serialization boundary is a
bijection on well-formed text, so the round-trip claim lives entirely at
the UTF-8 level. -/
/-- `SessionConfig` (Session.h lines 27-37) with its defaults. -/
structure SessionConfig where
  shell : List Nat := [99, 109, 100, 46, 101, 120, 101]
  args : List Nat := []
  workingDir : List Nat := []
  title : List Nat := [67, 111, 110, 115, 111, 108, 101, 51]
  profileName : List Nat := []
  rows : Int := 25
  cols : Int := 80
  scrollbackLines : Nat := 10000
  tabIndex : Int := 0
  deriving DecidableEq, Repr

end Console3

namespace Console3

def shellKey : List Nat := [115, 104, 101, 108, 108]

end Console3

namespace Console3

def argsKey : List Nat := [97, 114, 103, 115]

end Console3

namespace Console3

def workingDirKey : List Nat := [119, 111, 114, 107, 105, 110, 103, 68, 105, 114]

end Console3

namespace Console3

def titleKey : List Nat := [116, 105, 116, 108, 101]

end Console3

namespace Console3

def profileNameKey : List Nat := [112, 114, 111, 102, 105, 108, 101, 78, 97, 109, 101]

end Console3

namespace Console3

def rowsKey : List Nat := [114, 111, 119, 115]

end Console3

namespace Console3

def colsKey : List Nat := [99, 111, 108, 115]

end Console3

namespace Console3

def scrollbackLinesKey : List Nat :=
  [115, 99, 114, 111, 108, 108, 98, 97, 99, 107, 76, 105, 110, 101, 115]

end Console3

namespace Console3

def tabIndexKey : List Nat := [116, 97, 98, 73, 110, 100, 101, 120]

end Console3

namespace Console3

/-- Decimal digits of a natural number (`std::to_string`). -/
def natRepr (n : Nat) : List Nat :=
  if n < 10 then [48 + n]
  else natRepr (n / 10) ++ [48 + n % 10]
decreasing_by omega

end Console3

namespace Console3

/-- `std::to_string` on an `int`. -/
def intRepr (v : Int) : List Nat :=
  if v < 0 then 45 :: natRepr (-v).toNat else natRepr v.toNat

end Console3

namespace Console3

/-- `"  \"key\": "` — the shared key chunk of every serialized line (the
two-space indent is folded into the previous chunk). -/
def keyChunk (key : List Nat) : List Nat := 34 :: key ++ [34, 58, 32]

end Console3

namespace Console3

/-- A quoted string value. -/
def strValueChunk (v : List Nat) : List Nat := 34 :: v ++ [34]

end Console3

namespace Console3

/-- `",\n  "` between lines. -/
def sepChunk : List Nat := [44, 10, 32, 32]

end Console3

namespace Console3

/-- `Session::Serialize` (lines 245-262) as a function of the config being
written (`Serialize` calls it on `GetConfig()`): the hand-built JSON
document, with no escaping of the string values. -/
def Serialize (c : SessionConfig) : List Nat :=
  [123, 10, 32, 32] ++
  keyChunk shellKey ++ strValueChunk c.shell ++ sepChunk ++
  keyChunk argsKey ++ strValueChunk c.args ++ sepChunk ++
  keyChunk workingDirKey ++ strValueChunk c.workingDir ++ sepChunk ++
  keyChunk titleKey ++ strValueChunk c.title ++ sepChunk ++
  keyChunk profileNameKey ++ strValueChunk c.profileName ++ sepChunk ++
  keyChunk rowsKey ++ intRepr c.rows ++ sepChunk ++
  keyChunk colsKey ++ intRepr c.cols ++ sepChunk ++
  keyChunk scrollbackLinesKey ++ natRepr c.scrollbackLines ++ sepChunk ++
  keyChunk tabIndexKey ++ intRepr c.tabIndex ++ [10, 125]

end Console3

namespace Console3

/-- `std::string::find`: index of the first occurrence of `pat`, scanning
left to right (an empty pattern matches at 0). -/
def findSub (pat : List Nat) : List Nat → Option Nat
  | [] => if ([] : List Nat).take pat.length = pat then some 0 else none
  | b :: t =>
    if (b :: t).take pat.length = pat then some 0
    else Option.map (fun n => n + 1) (findSub pat t)

end Console3

namespace Console3

/-- `atoi`'s digit loop. -/
def parseDigitsAux : List Nat → Nat → Nat
  | [], acc => acc
  | b :: rest, acc =>
    if 48 ≤ b ∧ b ≤ 57 then parseDigitsAux rest (acc * 10 + (b - 48)) else acc

end Console3

namespace Console3

def isSpaceByte (b : Nat) : Bool := decide (b = 32 ∨ (9 ≤ b ∧ b ≤ 13))

end Console3

namespace Console3

/-- `atoi` on the in-range inputs the deserializer feeds it (overflow, which
is undefined for `atoi`, is outside the modelled domain): skip leading
whitespace, optional sign, then greedy digits. -/
def atoiModel (s : List Nat) : Int :=
  match s.dropWhile isSpaceByte with
  | [] => 0
  | b :: rest =>
    if b = 45 then -(parseDigitsAux rest 0 : Int)
    else if b = 43 then (parseDigitsAux rest 0 : Int)
    else (parseDigitsAux (b :: rest) 0 : Int)

end Console3

namespace Console3

/-- `static_cast<size_t>` of an `int`. -/
def intToSizeT (v : Int) : Nat := (v % (W64 : Int)).toNat

end Console3

namespace Console3

/-- The `findString` lambda in `Session::Deserialize` (lines 268-276). -/
def findString (json : List Nat) (key : List Nat) : List Nat :=
  let searchKey := 34 :: key ++ [34, 58, 32, 34]
  match findSub searchKey json with
  | none => []
  | some pos =>
    let pos2 := pos + searchKey.length
    match findSub [34] (json.drop pos2) with
    | none => []
    | some off => (json.drop pos2).take off

end Console3

namespace Console3

/-- The `findInt` lambda in `Session::Deserialize` (lines 278-284). -/
def findInt (json : List Nat) (key : List Nat) : Int :=
  let searchKey := 34 :: key ++ [34, 58, 32]
  match findSub searchKey json with
  | none => 0
  | some pos => atoiModel (json.drop (pos + searchKey.length))

end Console3

namespace Console3

/-- `Session::Deserialize` (lines 264-303): extract every field by first
occurrence, then apply the defensive defaults.  The source's
`std::optional` result is always engaged, so the payload is returned
directly. -/
def Deserialize (json : List Nat) : SessionConfig :=
  let cfg : SessionConfig :=
    { shell := findString json shellKey
      args := findString json argsKey
      workingDir := findString json workingDirKey
      title := findString json titleKey
      profileName := findString json profileNameKey
      rows := findInt json rowsKey
      cols := findInt json colsKey
      scrollbackLines := intToSizeT (findInt json scrollbackLinesKey)
      tabIndex := findInt json tabIndexKey }
  let cfg2 := if cfg.shell = [] then
      { cfg with shell := [99, 109, 100, 46, 101, 120, 101] } else cfg
  let cfg3 := if cfg2.rows ≤ 0 then { cfg2 with rows := 25 } else cfg2
  let cfg4 := if cfg3.cols ≤ 0 then { cfg3 with cols := 80 } else cfg3
  if cfg4.scrollbackLines = 0 then { cfg4 with scrollbackLines := 10000 } else cfg4

end Console3

namespace Console3

/-- `pat` occurs in `s` at position `i`. -/
def MatchAt (s pat : List Nat) (i : Nat) : Prop := ∃ t, pat ++ t = s.drop i

end Console3

namespace Console3

/-- `pat` does not occur at any position inside the `A` part of `A ++ B`. -/
def NoOcc (pat A B : List Nat) : Prop := ∀ i, i < A.length → ¬ MatchAt (A ++ B) pat i

end Console3

namespace Console3

/-- Decidable check that `pat` mismatches, inside the overlap, at every
start position of the concrete chunk `A` (so no occurrence can start in
`A` whatever follows it). -/
def litMismatch (pat A : List Nat) : Bool :=
  (List.range A.length).all (fun i =>
    (List.range (min pat.length (A.length - i))).any (fun j =>
      pat.getD j 0 != A.getD (i + j) 0))

end Console3

namespace Console3

/-! ## Claim fixtures: small concrete states used by witnesses and
counterexamples. -/
/-- A started 10x20 grid with the default 10000-line scrollback cap, as
`Session::Start` creates it. -/
def c1Buffer : TerminalBuffer :=
  { rows := 10, cols := 20, maxScrollback := 10000
    screen := List.replicate 10 (List.replicate 20 s_emptyCell)
    scrollback := []
    dirty := List.replicate 10 true }

end Console3

namespace Console3

/-- The session state right after `Session::Start` on a 10x20 grid. -/
def c1Session : SessionSt := { buffer := c1Buffer, title := [], titleEvents := [] }

end Console3

namespace Console3

/-- A capacity-4 ring filled to its usable capacity (3 bytes). -/
def c2FullRing : RingBuffer := (RingBuffer.Write (RingBuffer.init 4) [1, 2, 3]).1

end Console3

namespace Console3

/-- A 2x2 grid with both dirty bits clear (as after `ClearDirty`). -/
def c7Buf : TerminalBuffer :=
  { rows := 2, cols := 2, maxScrollback := 5
    screen := List.replicate 2 (List.replicate 2 s_emptyCell)
    scrollback := []
    dirty := [false, false] }

end Console3

namespace Console3

/-- A 2x3 grid for the resize witness. -/
def c6Buf : TerminalBuffer :=
  { rows := 2, cols := 3, maxScrollback := 5
    screen := List.replicate 2 (List.replicate 3 s_emptyCell)
    scrollback := []
    dirty := List.replicate 2 true }

end Console3

namespace Console3

/-- A 2x2 grid for the region-text witness. -/
def c10Buf : TerminalBuffer :=
  { rows := 2, cols := 2, maxScrollback := 5
    screen := List.replicate 2 (List.replicate 2 s_emptyCell)
    scrollback := []
    dirty := List.replicate 2 true }

end Console3

namespace Console3

/-- A config whose shell string is empty; serialization writes `""` and
deserialization then substitutes the `cmd.exe` default. -/
def c8Config : SessionConfig := { shell := [] }

end Console3

namespace Console3

theorem W64_eq : W64 = 2 ^ 64 := by norm_num [W64]

end Console3

namespace Console3

theorem wsub_of_le (a b : Nat) (hb : b ≤ a) (ha : a < W64) : wsub a b = a - b := by
  unfold wsub
  have hW : a + (W64 - b) = (a - b) + W64 := by
    have : b < W64 := lt_of_le_of_lt hb ha
    omega
  rw [hW, Nat.add_mod_right, Nat.mod_eq_of_lt (by omega)]

end Console3

namespace Console3

theorem wsub_add_cancel (t n : Nat) (ht : t < W64) (hn : n < W64) :
    wsub ((t + n) % W64) t = n := by
  unfold wsub
  rw [Nat.mod_add_mod]
  have h : t + n + (W64 - t) = n + W64 := by omega
  rw [h, Nat.add_mod_right, Nat.mod_eq_of_lt hn]

end Console3

namespace Console3

/-- Adding after a mod-`W64` reduction does not change the value mod a divisor
of `W64` (used for buffer indices: the index mask divides 2^64). -/
theorem modW_add_mod (cap x i : Nat) (hdvd : cap ∣ W64) :
    (x % W64 + i) % cap = (x + i) % cap := by
  conv_lhs => rw [Nat.add_mod, Nat.mod_mod_of_dvd x hdvd]
  rw [← Nat.add_mod]

end Console3

namespace Console3.RingBuffer

theorem cap_lt_W64 (k : Nat) (hk : k ≤ 63) : 2 ^ k < W64 := by
  rw [W64_eq]
  exact pow_lt_pow_right₀ (by norm_num) (by omega)

end Console3.RingBuffer

namespace Console3.RingBuffer

theorem cap_dvd_W64 (k : Nat) (hk : k ≤ 63) : (2 ^ k : Nat) ∣ W64 := by
  rw [W64_eq]
  exact pow_dvd_pow 2 (by omega)

end Console3.RingBuffer

namespace Console3.RingBuffer

theorem Size_eq (s : RingBuffer) (k n : Nat) (h : WFp s k n) : Size s = n := by
  obtain ⟨hk, hcap, hmask, ht, hn, hh⟩ := h
  have hnW : n < W64 := lt_trans (hcap ▸ hn) (cap_lt_W64 k hk)
  unfold Size AvailableToRead
  rw [hh]
  exact wsub_add_cancel s.tail n ht hnW

end Console3.RingBuffer

namespace Console3.RingBuffer

theorem Available_eq (s : RingBuffer) (k n : Nat) (h : WFp s k n) :
    Available s = s.capacity - 1 - n := by
  have hsz := Size_eq s k n h
  obtain ⟨hk, hcap, hmask, ht, hn, hh⟩ := h
  have hcapW : s.capacity < W64 := hcap ▸ cap_lt_W64 k hk
  unfold Available AvailableToWrite
  unfold Size AvailableToRead at hsz
  rw [hsz]
  exact wsub_of_le _ _ (by omega) (by omega)

end Console3.RingBuffer

namespace Console3.RingBuffer

theorem queue_length (s : RingBuffer) : (queue s).length = Size s := by
  simp [queue]

end Console3.RingBuffer

namespace Console3.RingBuffer

/-- The masked head/tail index is the counter mod capacity. -/
theorem mask_index (s : RingBuffer) (k : Nat) (hcap : s.capacity = 2 ^ k)
    (hmask : s.mask = s.capacity - 1) (x : Nat) : x &&& s.mask = x % s.capacity := by
  rw [hmask, hcap]
  exact Nat.and_pow_two_sub_one_eq_mod x k

end Console3.RingBuffer

namespace Console3.RingBuffer

theorem mod_add_of_lt (a j m : Nat) (h : a % m + j < m) : (a + j) % m = a % m + j := by
  have hj : j < m := by omega
  rw [Nat.add_mod, Nat.mod_eq_of_lt hj, Nat.mod_eq_of_lt h]

end Console3.RingBuffer

namespace Console3.RingBuffer

theorem pos_inj (t i i' cap : Nat) (hi : i < cap) (hi' : i' < cap)
    (h : (t + i) % cap = (t + i') % cap) : i = i' := by
  have hmod : i ≡ i' [MOD cap] := Nat.ModEq.add_left_cancel' t h
  have := Nat.ModEq.eq_of_lt_of_lt hmod hi hi'
  exact this

end Console3.RingBuffer

namespace Console3.RingBuffer

theorem copyAt_of_mem (f : Nat → Nat) (pos : Nat) (src : List Nat) (i : Nat)
    (h1 : pos ≤ i) (h2 : i < pos + src.length) :
    copyAt f pos src i = src.getD (i - pos) 0 := by
  simp only [copyAt]
  rw [if_pos ⟨h1, h2⟩]

end Console3.RingBuffer

namespace Console3.RingBuffer

theorem copyAt_of_not (f : Nat → Nat) (pos : Nat) (src : List Nat) (i : Nat)
    (h : ¬(pos ≤ i ∧ i < pos + src.length)) : copyAt f pos src i = f i := by
  simp only [copyAt]
  rw [if_neg h]

end Console3.RingBuffer

namespace Console3.RingBuffer

/-- Full characterization of `Write` on a well-formed state: the accepted
count is `min length free`, the counters advance accordingly, and the
logical queue gains exactly the accepted prefix of the data. -/
theorem Write_spec (s : RingBuffer) (data : List Nat) (k n : Nat) (h : WFp s k n) :
    (Write s data).2 = min data.length (s.capacity - 1 - n) ∧
    WFp (Write s data).1 k (n + min data.length (s.capacity - 1 - n)) ∧
    (Write s data).1.tail = s.tail ∧
    (Write s data).1.capacity = s.capacity ∧
    queue (Write s data).1 =
      queue s ++ data.take (min data.length (s.capacity - 1 - n)) := by
  have hav : AvailableToWrite s s.head s.tail = s.capacity - 1 - n := Available_eq s k n h
  obtain ⟨hk, hcap, hmask, ht, hn, hh⟩ := h
  have hcap1 : 0 < s.capacity := by rw [hcap]; positivity
  have hcapW : s.capacity < W64 := hcap ▸ cap_lt_W64 k hk
  set t := min data.length (s.capacity - 1 - n) with htdef
  have htle : t ≤ s.capacity - 1 - n := min_le_right _ _
  have htdata : t ≤ data.length := min_le_left _ _
  by_cases h0 : t = 0
  · -- nothing accepted: the state is returned unchanged
    have hWeq : Write s data = (s, 0) := by
      simp only [Write]
      rw [hav, ← htdef, if_pos h0]
    rw [hWeq, h0]
    exact ⟨rfl, ⟨hk, hcap, hmask, ht, hn, hh⟩, rfl, rfl, by simp⟩
  · -- some data accepted
    have hWr : Write s data =
        ({ s with
            buf :=
              (if 0 < (t - min t (s.capacity - (s.head &&& s.mask))) then
                copyAt (copyAt s.buf (s.head &&& s.mask)
                    (data.take (min t (s.capacity - (s.head &&& s.mask)))))
                  0 ((data.drop (min t (s.capacity - (s.head &&& s.mask)))).take
                      (t - min t (s.capacity - (s.head &&& s.mask))))
              else
                copyAt s.buf (s.head &&& s.mask)
                  (data.take (min t (s.capacity - (s.head &&& s.mask))))),
            head := (s.head + t) % W64 }, t) := by
      simp only [Write]
      rw [hav, ← htdef, if_neg h0]
    -- abbreviations matching the source locals
    set hI := s.head &&& s.mask with hIdef
    have hIeq : hI = (s.tail + n) % s.capacity := by
      rw [hIdef, mask_index s k hcap hmask, hh,
        Nat.mod_mod_of_dvd _ (hcap ▸ cap_dvd_W64 k hk)]
    have hIlt : hI < s.capacity := by
      rw [hIeq]; exact Nat.mod_lt _ hcap1
    set fc := min t (s.capacity - hI) with fcdef
    set sc := t - fc with scdef
    have hfcle : fc ≤ s.capacity - hI := min_le_right _ _
    have hfct : fc ≤ t := min_le_left _ _
    -- the new buffer contents
    set buf1 := copyAt s.buf hI (data.take fc) with buf1def
    set buf2 := (if 0 < sc then copyAt buf1 0 ((data.drop fc).take sc) else buf1) with buf2def
    have hWr2 : Write s data = ({ s with buf := buf2, head := (s.head + t) % W64 }, t) := hWr
    -- position equivalences
    have posA : ∀ j, j < fc → hI + j = (s.tail + (n + j)) % s.capacity := by
      intro j hj
      have hlt : (s.tail + n) % s.capacity + j < s.capacity := by
        rw [← hIeq]; omega
      rw [← Nat.add_assoc, mod_add_of_lt _ j _ hlt, hIeq]
    have hfc_full : 0 < sc → fc = s.capacity - hI := by
      intro hsc
      rcases Nat.lt_or_ge t (s.capacity - hI) with hlt | hge
      · exfalso
        have : fc = t := by rw [fcdef]; omega
        omega
      · rw [fcdef]; omega
    have posB : ∀ j, 0 < sc → j < sc → j = (s.tail + (n + fc + j)) % s.capacity := by
      intro j hsc hj
      have hfull := hfc_full hsc
      have hscap : sc < s.capacity := by omega
      have h1 : (s.tail + (n + fc + j)) % s.capacity
          = ((s.tail + n) % s.capacity + (fc + j)) % s.capacity := by
        rw [Nat.mod_add_mod]
        congr 1
        ring
      rw [h1, ← hIeq, hfull]
      have h2 : hI + (s.capacity - hI + j) = s.capacity + j := by omega
      rw [h2, Nat.add_mod_left, Nat.mod_eq_of_lt (by omega)]
    -- old positions are untouched
    have untouched : ∀ i, i < n → buf2 ((s.tail + i) % s.capacity) = s.buf ((s.tail + i) % s.capacity) := by
      intro i hi
      have hiC : i < s.capacity := by omega
      have notB : ¬(0 ≤ (s.tail + i) % s.capacity ∧
          (s.tail + i) % s.capacity < 0 + ((data.drop fc).take sc).length) := by
        rintro ⟨-, hmem⟩
        have hlen : ((data.drop fc).take sc).length ≤ sc := by
          simp [List.length_take]
        have hsc0 : 0 < sc := by omega
        have hj : (s.tail + i) % s.capacity < sc := by omega
        have := posB _ hsc0 hj
        have heq : (s.tail + i) % s.capacity = (s.tail + (n + fc + (s.tail + i) % s.capacity)) % s.capacity := this
        have hiEq : i = n + fc + (s.tail + i) % s.capacity := by
          apply pos_inj s.tail _ _ s.capacity hiC _ heq
          omega
        omega
      have notA : ¬(hI ≤ (s.tail + i) % s.capacity ∧
          (s.tail + i) % s.capacity < hI + (data.take fc).length) := by
        rintro ⟨hmem1, hmem2⟩
        have hlen : (data.take fc).length ≤ fc := by simp [List.length_take]
        set j := (s.tail + i) % s.capacity - hI with jdef
        have hjfc : j < fc := by omega
        have hpos : (s.tail + i) % s.capacity = hI + j := by omega
        have := posA j hjfc
        have heq : (s.tail + i) % s.capacity = (s.tail + (n + j)) % s.capacity := by
          rw [hpos, this]
        have hiEq : i = n + j := by
          apply pos_inj s.tail _ _ s.capacity hiC _ heq
          omega
        omega
      rw [buf2def]
      by_cases hsc : 0 < sc
      · rw [if_pos hsc, copyAt_of_not _ _ _ _ notB, buf1def, copyAt_of_not _ _ _ _ notA]
      · rw [if_neg hsc, buf1def, copyAt_of_not _ _ _ _ notA]
    -- new positions carry the written data
    have written : ∀ j, j < t → buf2 ((s.tail + (n + j)) % s.capacity) = data.getD j 0 := by
      intro j hj
      have hjdata : j < data.length := by omega
      by_cases hjfc : j < fc
      · -- first chunk
        have hpos : (s.tail + (n + j)) % s.capacity = hI + j := (posA j hjfc).symm
        have hlen1 : (data.take fc).length = fc := by
          simp [List.length_take]; omega
        have memA : hI ≤ hI + j ∧ hI + j < hI + (data.take fc).length := by
          constructor
          · omega
          · rw [hlen1]; omega
        have hb1 : buf1 (hI + j) = data.getD j 0 := by
          rw [buf1def, copyAt_of_mem _ _ _ _ memA.1 memA.2]
          have : hI + j - hI = j := by omega
          rw [this]
          rcases Nat.lt_or_ge j fc with h | h
          · rw [List.getD_eq_getElem _ _ (by rw [hlen1]; omega)]
            rw [List.getElem_take]
            rw [List.getD_eq_getElem _ _ hjdata]
          · omega
        rw [hpos, buf2def]
        by_cases hsc : 0 < sc
        · rw [if_pos hsc]
          have notB : ¬(0 ≤ hI + j ∧ hI + j < 0 + ((data.drop fc).take sc).length) := by
            rintro ⟨-, hmem⟩
            have hlen : ((data.drop fc).take sc).length ≤ sc := by
              simp [List.length_take]
            have : sc ≤ hI := by
              have hfull := hfc_full hsc
              omega
            omega
          rw [copyAt_of_not _ _ _ _ notB, hb1]
        · rw [if_neg hsc, hb1]
      · -- second chunk
        have hsc : 0 < sc := by omega
        have hfull := hfc_full hsc
        have hjsc : j - fc < sc := by omega
        have hpos : (s.tail + (n + j)) % s.capacity = j - fc := by
          have := posB (j - fc) hsc hjsc
          rw [show n + fc + (j - fc) = n + j by omega] at this
          omega
        have hlen2 : ((data.drop fc).take sc).length = sc := by
          simp [List.length_take, List.length_drop]
          omega
        rw [hpos, buf2def, if_pos hsc]
        have memB : 0 ≤ j - fc ∧ j - fc < 0 + ((data.drop fc).take sc).length := by
          constructor
          · omega
          · rw [hlen2]; omega
        rw [copyAt_of_mem _ _ _ _ memB.1 memB.2]
        have hzero : j - fc - 0 = j - fc := by omega
        rw [hzero]
        rw [List.getD_eq_getElem _ _ (by rw [hlen2]; omega)]
        rw [List.getElem_take, List.getElem_drop]
        rw [List.getD_eq_getElem _ _ hjdata]
        congr 1
        omega
    -- assemble: the result state is well-formed with fill level n + t
    have hWF2 : WFp (Write s data).1 k (n + t) := by
      rw [hWr2]
      refine ⟨hk, hcap, hmask, ht, ?_, ?_⟩
      · show n + t < s.capacity
        omega
      · show (s.head + t) % W64 = (s.tail + (n + t)) % W64
        rw [hh, Nat.mod_add_mod, Nat.add_assoc]
    refine ⟨by rw [hWr2], hWF2, by rw [hWr2], by rw [hWr2], ?_⟩
    -- queue equality
    have hsz2 : Size (Write s data).1 = n + t := Size_eq _ k (n + t) hWF2
    have hq1len : (queue (Write s data).1).length = n + t := by
      rw [queue_length, hsz2]
    have hszold : Size s = n := Size_eq s k n ⟨hk, hcap, hmask, ht, hn, hh⟩
    have hqslen : (queue s).length = n := by rw [queue_length, hszold]
    have htklen : (data.take t).length = t := by
      simp [List.length_take]; omega
    apply List.ext_getElem
    · rw [hq1len]
      simp [List.length_append, hqslen, htklen]
    · intro i h1 h2
      have hilt : i < n + t := by rw [hq1len] at h1; exact h1
      have hqget : (queue (Write s data).1)[i] =
          buf2 (((Write s data).1.tail + i) % (Write s data).1.capacity) := by
        simp only [queue, Size]
        rw [List.getElem_map, List.getElem_range]
        rw [hWr2]
      rw [hqget, hWr2]
      simp only
      rcases Nat.lt_or_ge i n with hin | hin
      · -- old part
        rw [untouched i hin]
        rw [List.getElem_append_left (by rw [hqslen]; exact hin)]
        simp only [queue, Size]
        rw [List.getElem_map, List.getElem_range]
      · -- new part
        have hj : i - n < t := by omega
        have hw := written (i - n) hj
        rw [show n + (i - n) = i from by omega] at hw
        rw [hw]
        rw [List.getElem_append_right (by rw [hqslen]; omega)]
        simp only [hqslen]
        rw [List.getElem_take]
        rw [List.getD_eq_getElem _ _ (by omega : i - n < data.length)]

end Console3.RingBuffer

namespace Console3.RingBuffer

/-- Full characterization of `Read` on a well-formed state: it returns the
first `min maxLength n` queued bytes and consumes them. -/
theorem Read_spec (s : RingBuffer) (maxLength : Nat) (k n : Nat) (h : WFp s k n) :
    (Read s maxLength).2 = (queue s).take maxLength ∧
    WFp (Read s maxLength).1 k (n - min maxLength n) ∧
    (Read s maxLength).1.head = s.head ∧
    (Read s maxLength).1.capacity = s.capacity ∧
    (Read s maxLength).1.buf = s.buf ∧
    queue (Read s maxLength).1 = (queue s).drop maxLength := by
  have hsz : AvailableToRead s.head s.tail = n := Size_eq s k n h
  obtain ⟨hk, hcap, hmask, ht, hn, hh⟩ := h
  have hcap1 : 0 < s.capacity := by rw [hcap]; positivity
  have hqslen : (queue s).length = n := by
    rw [queue_length]; exact Size_eq s k n ⟨hk, hcap, hmask, ht, hn, hh⟩
  set tr := min maxLength n with trdef
  have htrn : tr ≤ n := min_le_right _ _
  by_cases h0 : tr = 0
  · have hReq : Read s maxLength = (s, []) := by
      simp only [Read]
      rw [hsz, ← trdef, if_pos h0]
    rw [hReq]
    have hcases : maxLength = 0 ∨ n = 0 := by omega
    have hwf0 : WFp s k (n - tr) := by
      refine ⟨hk, hcap, hmask, ht, by omega, ?_⟩
      rw [hh]; congr 1; omega
    refine ⟨?_, hwf0, rfl, rfl, rfl, ?_⟩
    · rcases hcases with hm | hnn
      · rw [hm, List.take_zero]
      · have : queue s = [] := List.eq_nil_of_length_eq_zero (by omega)
        rw [this, List.take_nil]
    · rcases hcases with hm | hnn
      · rw [hm, List.drop_zero]
      · have : queue s = [] := List.eq_nil_of_length_eq_zero (by omega)
        rw [this, List.drop_nil]
  · have hRd : Read s maxLength =
        ({ s with tail := (s.tail + tr) % W64 },
          (List.range (min tr (s.capacity - (s.tail &&& s.mask)))).map
              (fun j => s.buf ((s.tail &&& s.mask) + j)) ++
            (List.range (tr - min tr (s.capacity - (s.tail &&& s.mask)))).map
              (fun j => s.buf j)) := by
      simp only [Read]
      rw [hsz, ← trdef, if_neg h0]
    set tI := s.tail &&& s.mask with tIdef
    have tIeq : tI = s.tail % s.capacity := by
      rw [tIdef, mask_index s k hcap hmask]
    have tIlt : tI < s.capacity := by
      rw [tIeq]; exact Nat.mod_lt _ hcap1
    set fc := min tr (s.capacity - tI) with fcdef
    set sc := tr - fc with scdef
    have hfcle : fc ≤ s.capacity - tI := min_le_right _ _
    have hfct : fc ≤ tr := min_le_left _ _
    have posA : ∀ j, j < fc → tI + j = (s.tail + j) % s.capacity := by
      intro j hj
      have hlt : s.tail % s.capacity + j < s.capacity := by
        rw [← tIeq]; omega
      rw [mod_add_of_lt _ j _ hlt, tIeq]
    have hfc_full : 0 < sc → fc = s.capacity - tI := by
      intro hsc
      rcases Nat.lt_or_ge tr (s.capacity - tI) with hlt | hge
      · exfalso
        have : fc = tr := by rw [fcdef]; omega
        omega
      · rw [fcdef]; omega
    have posB : ∀ j, 0 < sc → j < sc → j = (s.tail + (fc + j)) % s.capacity := by
      intro j hsc hj
      have hfull := hfc_full hsc
      have h1 : (s.tail + (fc + j)) % s.capacity
          = (s.tail % s.capacity + (fc + j)) % s.capacity := by
        rw [Nat.mod_add_mod]
      rw [h1, ← tIeq, hfull]
      have h2 : tI + (s.capacity - tI + j) = s.capacity + j := by omega
      rw [h2, Nat.add_mod_left, Nat.mod_eq_of_lt (by omega)]
    have houtlen :
        ((List.range fc).map (fun j => s.buf (tI + j)) ++
          (List.range sc).map (fun j => s.buf j)).length = tr := by
      simp [List.length_append]
      omega
    refine ⟨?_, ?_, by rw [hRd], by rw [hRd], by rw [hRd], ?_⟩
    · -- returned bytes are the first tr bytes of the queue
      rw [hRd]
      apply List.ext_getElem
      · rw [houtlen, List.length_take, hqslen]
      · intro i h1 h2
        have hitr : i < tr := by rw [houtlen] at h1; exact h1
        rw [List.getElem_take]
        have hib : i < (queue s).length := by rw [hqslen]; omega
        have hqi : (queue s)[i] =
            s.buf ((s.tail + i) % s.capacity) := by
          simp only [queue, Size]
          rw [List.getElem_map, List.getElem_range]
        rw [hqi]
        rcases Nat.lt_or_ge i fc with hifc | hifc
        · rw [List.getElem_append_left (by simp [hifc])]
          rw [List.getElem_map, List.getElem_range]
          rw [posA i hifc]
        · rw [List.getElem_append_right (by simp; omega)]
          simp only [List.length_map, List.length_range]
          rw [List.getElem_map, List.getElem_range]
          have hsc : 0 < sc := by omega
          have := posB (i - fc) hsc (by omega)
          rw [show fc + (i - fc) = i from by omega] at this
          rw [← this]
    · -- the consumed state is well-formed at fill level n - tr
      rw [hRd]
      refine ⟨hk, hcap, hmask, Nat.mod_lt _ (by rw [W64]; norm_num), ?_, ?_⟩
      · show n - tr < s.capacity
        omega
      · show s.head = ((s.tail + tr) % W64 + (n - tr)) % W64
        rw [Nat.mod_add_mod, hh]
        congr 1
        omega
    · -- the remaining queue is the dropped suffix
      have hWF2 : WFp (Read s maxLength).1 k (n - tr) := by
        rw [hRd]
        refine ⟨hk, hcap, hmask, Nat.mod_lt _ (by rw [W64]; norm_num), ?_, ?_⟩
        · show n - tr < s.capacity
          omega
        · show s.head = ((s.tail + tr) % W64 + (n - tr)) % W64
          rw [Nat.mod_add_mod, hh]
          congr 1
          omega
      have hq2len : (queue (Read s maxLength).1).length = n - tr := by
        rw [queue_length]; exact Size_eq _ k (n - tr) hWF2
      have hdropeq : (queue s).drop maxLength = (queue s).drop tr := by
        rcases Nat.lt_or_ge maxLength n with hlt | hge
        · have : tr = maxLength := by omega
          rw [this]
        · have h1 : (queue s).drop maxLength = [] :=
            List.drop_eq_nil_of_le (by omega)
          have h2 : (queue s).drop tr = [] :=
            List.drop_eq_nil_of_le (by omega)
          rw [h1, h2]
      rw [hdropeq]
      apply List.ext_getElem
      · rw [hq2len, List.length_drop, hqslen]
      · intro i h1 h2
        have hi : i < n - tr := by rw [hq2len] at h1; exact h1
        have hlhs : (queue (Read s maxLength).1)[i] =
            (Read s maxLength).1.buf
              (((Read s maxLength).1.tail + i) % (Read s maxLength).1.capacity) := by
          simp only [queue, Size]
          rw [List.getElem_map, List.getElem_range]
        rw [hlhs, hRd]
        simp only
        rw [List.getElem_drop]
        have htib : tr + i < (queue s).length := by rw [hqslen]; omega
        have hqi : (queue s)[tr + i] =
            s.buf ((s.tail + (tr + i)) % s.capacity) := by
          simp only [queue, Size]
          rw [List.getElem_map, List.getElem_range]
        rw [hqi]
        congr 1
        rw [modW_add_mod _ _ _ (hcap ▸ cap_dvd_W64 k hk)]
        congr 1
        ring

end Console3.RingBuffer

namespace Console3.RingBuffer

theorem Skip_spec (s : RingBuffer) (count : Nat) (k n : Nat) (h : WFp s k n) :
    WFp (Skip s count).1 k (n - min count n) ∧
    (Skip s count).1.capacity = s.capacity ∧ (Skip s count).1.mask = s.mask := by
  have hsz : AvailableToRead s.head s.tail = n := Size_eq s k n h
  obtain ⟨hk, hcap, hmask, ht, hn, hh⟩ := h
  set tk := min count n with tkdef
  by_cases h0 : 0 < tk
  · have hSk : Skip s count = ({ s with tail := (s.tail + tk) % W64 }, tk) := by
      simp only [Skip]
      rw [hsz, ← tkdef, if_pos h0]
    rw [hSk]
    refine ⟨⟨hk, hcap, hmask, Nat.mod_lt _ (by rw [W64]; norm_num), ?_, ?_⟩, rfl, rfl⟩
    · show n - tk < s.capacity
      omega
    · show s.head = ((s.tail + tk) % W64 + (n - tk)) % W64
      rw [Nat.mod_add_mod, hh]
      congr 1
      omega
  · have hSk : Skip s count = (s, tk) := by
      simp only [Skip]
      rw [hsz, ← tkdef, if_neg h0]
    rw [hSk]
    refine ⟨⟨hk, hcap, hmask, ht, ?_, ?_⟩, rfl, rfl⟩
    · show n - tk < s.capacity
      omega
    · show s.head = (s.tail + (n - tk)) % W64
      rw [hh]
      congr 1
      omega

end Console3.RingBuffer

namespace Console3.RingBuffer

theorem Clear_spec (s : RingBuffer) (k n : Nat) (h : WFp s k n) :
    WFp (Clear s) k 0 ∧ (Clear s).capacity = s.capacity ∧ (Clear s).mask = s.mask := by
  obtain ⟨hk, hcap, hmask, ht, hn, hh⟩ := h
  refine ⟨⟨hk, hcap, hmask, ?_, ?_, ?_⟩, rfl, rfl⟩
  · show (0 : Nat) < W64
    rw [W64]; norm_num
  · show (0 : Nat) < s.capacity
    omega
  · show (0 : Nat) = (0 + 0) % W64
    norm_num

end Console3.RingBuffer

namespace Console3.RingBuffer

/-- Well-formedness is preserved by any operation sequence, and the
capacity never changes. -/
theorem runOps_wf (ops : List RingOp) :
    ∀ (s : RingBuffer) (k n : Nat), WFp s k n →
      ∃ n', WFp (runOps s ops).1 k n' ∧
        (runOps s ops).1.capacity = s.capacity := by
  induction ops with
  | nil => intro s k n h; exact ⟨n, h, rfl⟩
  | cons op rest ih =>
    intro s k n h
    cases op with
    | write d =>
      obtain ⟨-, hwf, -, hcap, -⟩ := Write_spec s d k n h
      obtain ⟨n', h1, h2⟩ := ih _ k _ hwf
      refine ⟨n', h1, ?_⟩
      simp only [runOps]
      rw [h2, hcap]
    | read m =>
      obtain ⟨-, hwf, -, hcap, -⟩ := Read_spec s m k n h
      obtain ⟨n', h1, h2⟩ := ih _ k _ hwf
      refine ⟨n', h1, ?_⟩
      simp only [runOps]
      rw [h2, hcap]
    | peek m =>
      obtain ⟨n', h1, h2⟩ := ih s k n h
      exact ⟨n', h1, h2⟩
    | skip c =>
      obtain ⟨hwf, hcap, -⟩ := Skip_spec s c k n h
      obtain ⟨n', h1, h2⟩ := ih _ k _ hwf
      refine ⟨n', h1, ?_⟩
      simp only [runOps]
      rw [h2, hcap]
    | clear =>
      obtain ⟨hwf, hcap, -⟩ := Clear_spec s k n h
      obtain ⟨n', h1, h2⟩ := ih _ k _ hwf
      refine ⟨n', h1, ?_⟩
      simp only [runOps]
      rw [h2, hcap]

end Console3.RingBuffer

namespace Console3.RingBuffer

/-- FIFO refinement for write/read sequences that never exceed the free
space: reads-so-far ++ remaining-queue = queue-at-start ++ writes-so-far. -/
theorem runOps_fifo (ops : List RingOp) :
    ∀ (s : RingBuffer) (k n : Nat), WFp s k n →
      rwOnly ops = true → validOps s ops = true →
      ∃ n', WFp (runOps s ops).1 k n' ∧
        (runOps s ops).2.2 ++ queue (runOps s ops).1 =
          queue s ++ (runOps s ops).2.1 := by
  induction ops with
  | nil =>
    intro s k n h _ _
    exact ⟨n, h, by simp [runOps]⟩
  | cons op rest ih =>
    intro s k n h hrw hv
    cases op with
    | write d =>
      simp only [validOps, Bool.and_eq_true, decide_eq_true_eq] at hv
      simp only [rwOnly] at hrw
      obtain ⟨hlen, hvrest⟩ := hv
      have hAv : Available s = s.capacity - 1 - n := Available_eq s k n h
      obtain ⟨hacc, hwf, -, -, hq⟩ := Write_spec s d k n h
      have hfull : min d.length (s.capacity - 1 - n) = d.length := by
        rw [hAv] at hlen
        omega
      rw [hfull] at hwf hq
      rw [List.take_length] at hq
      obtain ⟨n', h1, h2⟩ := ih _ k _ hwf hrw hvrest
      refine ⟨n', h1, ?_⟩
      simp only [runOps]
      rw [h2, hq]
      simp [List.append_assoc]
    | read m =>
      simp only [validOps] at hv
      simp only [rwOnly] at hrw
      obtain ⟨hout, hwf, -, -, -, hq⟩ := Read_spec s m k n h
      obtain ⟨n', h1, h2⟩ := ih _ k _ hwf hrw hv
      refine ⟨n', h1, ?_⟩
      simp only [runOps]
      rw [List.append_assoc, h2, hq, hout]
      rw [← List.append_assoc, List.take_append_drop]
    | peek m => simp [rwOnly] at hrw
    | skip c => simp [rwOnly] at hrw
    | clear => simp [rwOnly] at hrw

end Console3.RingBuffer

namespace Console3.RingBuffer

theorem orShift_iff (x c m : Nat) (hc : 0 < c)
    (hx : ∀ j, x.testBit j = true ↔ ∃ i, i < c ∧ m.testBit (j + i) = true) :
    ∀ j, (orShift x c).testBit j = true ↔ ∃ i, i < 2 * c ∧ m.testBit (j + i) = true := by
  intro j
  rw [orShift, Nat.testBit_or, Bool.or_eq_true, Nat.testBit_shiftRight]
  constructor
  · rintro (h | h)
    · obtain ⟨i, hi, hb⟩ := (hx j).1 h
      exact ⟨i, by omega, hb⟩
    · obtain ⟨i, hi, hb⟩ := (hx (c + j)).1 h
      refine ⟨c + i, by omega, ?_⟩
      rw [show j + (c + i) = c + j + i from by omega]
      exact hb
  · rintro ⟨i, hi, hb⟩
    rcases Nat.lt_or_ge i c with h | h
    · exact Or.inl ((hx j).2 ⟨i, h, hb⟩)
    · refine Or.inr ((hx (c + j)).2 ⟨i - c, by omega, ?_⟩)
      rw [show c + j + (i - c) = j + i from by omega]
      exact hb

end Console3.RingBuffer

namespace Console3.RingBuffer

theorem testBit_ge (m i : Nat) (h : m.testBit i = true) : 2 ^ i ≤ m := by
  rw [Nat.testBit_to_div_mod, decide_eq_true_eq] at h
  have hpos : 0 < m / 2 ^ i := by
    rcases Nat.eq_zero_or_pos (m / 2 ^ i) with h0 | h0
    · rw [h0] at h
      simp at h
    · exact h0
  exact (Nat.one_le_div_iff (Nat.pos_pow_of_pos i (by norm_num))).1 hpos

end Console3.RingBuffer

namespace Console3.RingBuffer

theorem testBit_log_self (m : Nat) (h : 0 < m) : m.testBit (Nat.log 2 m) = true := by
  rw [Nat.testBit_to_div_mod]
  have h1 : 2 ^ Nat.log 2 m ≤ m := Nat.pow_log_le_self 2 h.ne'
  have h2 : m < 2 ^ (Nat.log 2 m + 1) := Nat.lt_pow_succ_log_self (by norm_num) m
  have hp : 0 < 2 ^ Nat.log 2 m := Nat.pos_pow_of_pos _ (by norm_num)
  have hdiv : m / 2 ^ Nat.log 2 m = 1 := by
    have hd1 : 1 ≤ m / 2 ^ Nat.log 2 m := (Nat.one_le_div_iff hp).2 h1
    have hd2 : m / 2 ^ Nat.log 2 m < 2 := by
      rw [Nat.div_lt_iff_lt_mul hp]
      rw [pow_succ] at h2
      omega
    omega
  simp [hdiv]

end Console3.RingBuffer

namespace Console3.RingBuffer

/-- The six smearing steps set exactly the bits at or below the top bit. -/
theorem smear_eq (m : Nat) (hm : 0 < m) (hub : m < 2 ^ 63) :
    orShift (orShift (orShift (orShift (orShift (orShift m 1) 2) 4) 8) 16) 32
      = 2 ^ (Nat.log 2 m + 1) - 1 := by
  have hlog : Nat.log 2 m ≤ 62 := by
    by_contra hcon
    have h63 : 63 ≤ Nat.log 2 m := by omega
    have := (Nat.pow_le_iff_le_log (by norm_num) hm.ne').2 h63
    omega
  have h0 : ∀ j, m.testBit j = true ↔ ∃ i, i < 1 ∧ m.testBit (j + i) = true := by
    intro j
    constructor
    · intro h
      exact ⟨0, by omega, by simpa using h⟩
    · rintro ⟨i, hi, hb⟩
      have : i = 0 := by omega
      subst this
      simpa using hb
  have h1 := orShift_iff m 1 m (by norm_num) h0
  have h2 := orShift_iff _ 2 m (by norm_num) h1
  have h3 := orShift_iff _ 4 m (by norm_num) h2
  have h4 := orShift_iff _ 8 m (by norm_num) h3
  have h5 := orShift_iff _ 16 m (by norm_num) h4
  have h6 := orShift_iff _ 32 m (by norm_num) h5
  apply Nat.eq_of_testBit_eq
  intro j
  rw [Nat.testBit_two_pow_sub_one]
  have hchar : (orShift (orShift (orShift (orShift (orShift (orShift m 1) 2) 4) 8) 16) 32).testBit j = true
      ↔ j ≤ Nat.log 2 m := by
    rw [h6 j]
    constructor
    · rintro ⟨i, hi, hb⟩
      have hge := testBit_ge m (j + i) hb
      have : 2 ^ j ≤ m := le_trans (Nat.pow_le_pow_right (by norm_num) (by omega)) hge
      exact (Nat.pow_le_iff_le_log (by norm_num) hm.ne').1 this
    · intro hj
      refine ⟨Nat.log 2 m - j, by omega, ?_⟩
      rw [show j + (Nat.log 2 m - j) = Nat.log 2 m from by omega]
      exact testBit_log_self m hm
  by_cases hj : j ≤ Nat.log 2 m
  · rw [hchar.2 hj]
    simp [hj]
    omega
  · have : ¬ (orShift (orShift (orShift (orShift (orShift (orShift m 1) 2) 4) 8) 16) 32).testBit j = true := by
      intro hcon
      exact hj (hchar.1 hcon)
    rw [Bool.not_eq_true] at this
    rw [this]
    simp
    omega

end Console3.RingBuffer

namespace Console3.RingBuffer

/-- For any request up to 2^63 (any request whose rounding is representable
in `size_t`), `NextPowerOfTwo` computes the least power of two that is at
least the request. -/
theorem NextPowerOfTwo_eq (n : Nat) (h : n ≤ 2 ^ 63) :
    NextPowerOfTwo n = specRoundPow2 n := by
  rcases Nat.eq_zero_or_pos n with h0 | h0
  · subst h0
    have : NextPowerOfTwo 0 = 1 := by decide
    rw [this, specRoundPow2, Nat.clog_zero_right, pow_zero]
  rcases Nat.lt_or_ge n 2 with h1 | h1
  · have hn1 : n = 1 := by omega
    subst hn1
    have : NextPowerOfTwo 1 = 1 := by decide
    rw [this, specRoundPow2, Nat.clog_one_right, pow_zero]
  · -- n ≥ 2
    have hm : 0 < n - 1 := by omega
    have hub : n - 1 < 2 ^ 63 := by
      have : (2 : Nat) ^ 63 = 9223372036854775808 := by norm_num
      omega
    have hsm := smear_eq (n - 1) hm hub
    have hlog : Nat.log 2 (n - 1) ≤ 62 := by
      by_contra hcon
      have h63 : 63 ≤ Nat.log 2 (n - 1) := by omega
      have := (Nat.pow_le_iff_le_log (by norm_num) hm.ne').2 h63
      omega
    have hlt : 2 ^ (Nat.log 2 (n - 1) + 1) < W64 := by
      rw [W64_eq]
      exact pow_lt_pow_right₀ (by norm_num) (by omega)
    have hpos : 0 < 2 ^ (Nat.log 2 (n - 1) + 1) := Nat.pos_pow_of_pos _ (by norm_num)
    have hnp : NextPowerOfTwo n = 2 ^ (Nat.log 2 (n - 1) + 1) := by
      rw [NextPowerOfTwo, if_neg (by omega), hsm]
      rw [Nat.sub_add_cancel hpos]
      exact Nat.mod_eq_of_lt hlt
    rw [hnp, specRoundPow2]
    congr 1
    -- clog 2 n = log 2 (n-1) + 1 for n ≥ 2
    have hle : Nat.clog 2 n ≤ Nat.log 2 (n - 1) + 1 := by
      apply (Nat.le_pow_iff_clog_le (by norm_num)).1
      have := @Nat.lt_pow_succ_log_self 2 (by norm_num) (n - 1)
      omega
    have hge : Nat.log 2 (n - 1) + 1 ≤ Nat.clog 2 n := by
      by_contra hcon
      have hcl : Nat.clog 2 n ≤ Nat.log 2 (n - 1) := by omega
      have hup := (Nat.le_pow_iff_clog_le (by norm_num)).2 hcl
      have hdown : 2 ^ Nat.log 2 (n - 1) ≤ n - 1 := Nat.pow_log_le_self 2 hm.ne'
      omega
    omega

end Console3.RingBuffer

namespace Console3.RingBuffer

theorem init_wf (req : Nat) (h : req ≤ 2 ^ 63) :
    WFp (init req) (Nat.clog 2 req) 0 := by
  have hk : Nat.clog 2 req ≤ 63 := (Nat.le_pow_iff_clog_le (by norm_num)).1 h
  have hcap : (init req).capacity = 2 ^ Nat.clog 2 req := by
    show NextPowerOfTwo req = 2 ^ Nat.clog 2 req
    rw [NextPowerOfTwo_eq req h, specRoundPow2]
  refine ⟨hk, hcap, rfl, ?_, ?_, ?_⟩
  · show (0 : Nat) < W64
    rw [W64]; norm_num
  · show (0 : Nat) < (init req).capacity
    rw [hcap]
    positivity
  · show (0 : Nat) = (0 + 0) % W64
    norm_num

end Console3.RingBuffer

namespace Console3.RingBuffer

theorem queue_init (req : Nat) : queue (init req) = [] := by
  have hsz : Size (init req) = 0 := by
    show wsub 0 0 = 0
    unfold wsub
    simp
  unfold queue
  rw [hsz]
  simp

end Console3.RingBuffer

namespace Console3.TerminalBuffer

theorem shrinkRowsLoop_eq (k : Nat) :
    ∀ scr sb, shrinkRowsLoop k (scr, sb) = (scr.drop k, (scr.take k).reverse ++ sb) := by
  induction k with
  | zero => intro scr sb; simp [shrinkRowsLoop]
  | succ j ih =>
    intro scr sb
    cases scr with
    | nil => simp [shrinkRowsLoop, ih]
    | cons r rest =>
      rw [shrinkRowsLoop, ih]
      simp

end Console3.TerminalBuffer

namespace Console3.TerminalBuffer

theorem resizeRow_length (row : List Cell) (c : Nat) : (resizeRow row c).length = c := by
  simp [resizeRow, List.length_take]
  omega

end Console3.TerminalBuffer

namespace Console3.TerminalBuffer

theorem resizeBools_length (l : List Bool) (n : Nat) : (resizeBools l n).length = n := by
  simp [resizeBools, List.length_take]
  omega

end Console3.TerminalBuffer

namespace Console3.TerminalBuffer

theorem resizeRowsStep_spec (tb : TerminalBuffer) (rows : Int) (h : WF tb)
    (hr : 0 < rows) :
    (resizeRowsStep tb rows).rows = rows ∧
    (resizeRowsStep tb rows).cols = tb.cols ∧
    (resizeRowsStep tb rows).screen.length = rows.toNat ∧
    (∀ row ∈ (resizeRowsStep tb rows).screen, row.length = tb.cols.toNat) ∧
    (resizeRowsStep tb rows).dirty = tb.dirty := by
  obtain ⟨hrows, hcols, hslen, hrowlen, hdlen⟩ := h
  unfold resizeRowsStep
  by_cases hne : rows ≠ tb.rows
  · rw [if_pos hne]
    by_cases hgrow : tb.rows < rows
    · rw [if_pos hgrow]
      refine ⟨rfl, rfl, ?_, ?_, rfl⟩
      · simp [List.length_append, hslen]
        omega
      · intro row hrow
        rcases List.mem_append.1 hrow with hmem | hmem
        · exact hrowlen row hmem
        · have := List.eq_of_mem_replicate hmem
          rw [this]
          simp [CreateEmptyRow]
    · rw [if_neg hgrow]
      rw [shrinkRowsLoop_eq]
      refine ⟨rfl, rfl, ?_, ?_, rfl⟩
      · simp [List.length_drop, hslen]
        omega
      · intro row hrow
        exact hrowlen row (List.drop_subset _ _ hrow)
  · rw [if_neg hne]
    push_neg at hne
    refine ⟨hne.symm, rfl, ?_, hrowlen, rfl⟩
    rw [hslen, hne]

end Console3.TerminalBuffer

namespace Console3.TerminalBuffer

theorem resizeColsStep_spec (tb : TerminalBuffer) (cols : Int)
    (hrl : ∀ row ∈ tb.screen, row.length = tb.cols.toNat) :
    (resizeColsStep tb cols).rows = tb.rows ∧
    (resizeColsStep tb cols).cols = cols ∧
    (resizeColsStep tb cols).screen.length = tb.screen.length ∧
    (∀ row ∈ (resizeColsStep tb cols).screen, row.length = cols.toNat) ∧
    (resizeColsStep tb cols).dirty = tb.dirty := by
  unfold resizeColsStep
  by_cases hne : cols ≠ tb.cols
  · rw [if_pos hne]
    refine ⟨rfl, rfl, by simp, ?_, rfl⟩
    intro row hrow
    obtain ⟨orig, -, heq⟩ := List.mem_map.1 hrow
    rw [← heq]
    exact resizeRow_length orig cols.toNat
  · rw [if_neg hne]
    push_neg at hne
    refine ⟨rfl, hne.symm, rfl, ?_, rfl⟩
    intro row hrow
    rw [hrl row hrow, hne]

end Console3.TerminalBuffer

namespace Console3.TerminalBuffer

/-- Shape of the grid after `Resize` on a well-formed buffer with positive
target dimensions: `r` rows, each of `c` cells, and `r` dirty bits all set. -/
theorem Resize_shape (tb : TerminalBuffer) (r c : Int) (h : WF tb)
    (hr : 0 < r) (hc : 0 < c) :
    (Resize tb r c).screen.length = r.toNat ∧
    (∀ row ∈ (Resize tb r c).screen, row.length = c.toNat) ∧
    (Resize tb r c).dirty.length = r.toNat ∧
    (∀ b ∈ (Resize tb r c).dirty, b = true) ∧
    (Resize tb r c).rows = r ∧ (Resize tb r c).cols = c := by
  have h1 := resizeRowsStep_spec tb r h hr
  obtain ⟨h1rows, h1cols, h1slen, h1rowlen, h1dirty⟩ := h1
  have h2 := resizeColsStep_spec (resizeRowsStep tb r) c
    (by rw [h1cols]; exact h1rowlen)
  obtain ⟨h2rows, h2cols, h2slen, h2rowlen, h2dirty⟩ := h2
  have hRes : Resize tb r c =
      MarkAllDirty
        { resizeColsStep (resizeRowsStep tb r) c with
            dirty := resizeBools (resizeColsStep (resizeRowsStep tb r) c).dirty
              (resizeColsStep (resizeRowsStep tb r) c).rows.toNat } := by
    rw [Resize, if_neg (by omega)]
  rw [hRes]
  refine ⟨?_, ?_, ?_, ?_, ?_, ?_⟩
  · show (resizeColsStep (resizeRowsStep tb r) c).screen.length = r.toNat
    rw [h2slen, h1slen]
  · intro row hrow
    exact h2rowlen row hrow
  · show ((resizeBools (resizeColsStep (resizeRowsStep tb r) c).dirty
        (resizeColsStep (resizeRowsStep tb r) c).rows.toNat).map
          (fun _ => true)).length = r.toNat
    rw [List.length_map, resizeBools_length, h2rows, h1rows]
  · intro b hb
    simp only [MarkAllDirty] at hb
    obtain ⟨-, -, heq⟩ := List.mem_map.1 hb
    exact heq.symm
  · show (resizeColsStep (resizeRowsStep tb r) c).rows = r
    rw [h2rows, h1rows]
  · exact h2cols

end Console3.TerminalBuffer

namespace Console3.TerminalBuffer

/-- `Resize` preserves well-formedness. -/
theorem Resize_wf (tb : TerminalBuffer) (r c : Int) (h : WF tb)
    (hr : 0 < r) (hc : 0 < c) : WF (Resize tb r c) := by
  obtain ⟨hs, hrl, hd, hdall, hrows, hcols⟩ := Resize_shape tb r c h hr hc
  refine ⟨by omega, by omega, ?_, ?_, ?_⟩
  · rw [hs, hrows]
  · intro row hrow
    rw [hrl row hrow, hcols]
  · rw [hd, hrows]

end Console3.TerminalBuffer

namespace Console3.TerminalBuffer

theorem if_empty_self (l : List Nat) : (if l = [] then ([] : List Nat) else l) = l := by
  by_cases h : l = []
  · rw [if_pos h, h]
  · rw [if_neg h]

end Console3.TerminalBuffer

namespace Console3.TerminalBuffer

theorem joinRows_cons (x : List Nat) (l : List (List Nat)) (h : l ≠ []) :
    joinRows (x :: l) = x ++ 10 :: joinRows l := by
  cases l with
  | nil => exact absurd rfl h
  | cons y ys => rfl

end Console3.TerminalBuffer

namespace Console3.TerminalBuffer

theorem regionAux_join (tb : TerminalBuffer) (er : Int) :
    ∀ (k : Nat) (row : Int), row + k = er + 1 →
      regionAux tb er row k =
        joinRows ((List.range k).map (fun (i : Nat) => GetRowText tb (row + (i : Int)))) := by
  intro k
  induction k with
  | zero => intro row _; rfl
  | succ j ih =>
    intro row h
    cases j with
    | zero =>
      have hnl : ¬ row < er := by omega
      rw [regionAux, if_neg hnl, if_empty_self]
      simp [regionAux, joinRows]
    | succ j' =>
      have hnl : row < er := by omega
      rw [regionAux, if_pos hnl, if_empty_self]
      rw [ih (row + 1) (by omega)]
      have hshift :
          ((List.range (j' + 1)).map (fun (i : Nat) => GetRowText tb (row + 1 + (i : Int)))) =
          ((List.range (j' + 1)).map Nat.succ).map
            (fun (i : Nat) => GetRowText tb (row + (i : Int))) := by
        rw [List.map_map]
        apply List.map_congr_left
        intro i _
        show GetRowText tb (row + 1 + (i : Int)) = GetRowText tb (row + (i.succ : Int))
        congr 1
        push_cast
        ring
      have hrange : List.range (j' + 1 + 1) = 0 :: (List.range (j' + 1)).map Nat.succ :=
        List.range_succ_eq_map (j' + 1)
      rw [hrange, List.map_cons]
      rw [joinRows_cons _ _ (by simp)]
      rw [← hshift]
      norm_num

end Console3.TerminalBuffer

namespace Console3.TerminalBuffer

/-- C10: confirmed.  `GetRegionText` coincides with the column-free,
whole-row extraction (`GetRowText` of every row in the clamped
`[startRow, endRow]` range, joined with newlines): the `startCol` and
`endCol` arguments are computed into locals the source never reads, so
they have no effect on the result. -/
theorem GetRegionText_eq_rows (tb : TerminalBuffer) (h : 1 ≤ tb.rows)
    (startRow startCol endRow endCol : Int) :
    GetRegionText tb startRow startCol endRow endCol =
      regionTextRows tb startRow endRow := by
  rw [GetRegionText, regionTextRows]
  rcases Int.lt_or_le (iclamp endRow 0 (tb.rows - 1)) (iclamp startRow 0 (tb.rows - 1)) with hlt | hle
  · have hk : (iclamp endRow 0 (tb.rows - 1) + 1 - iclamp startRow 0 (tb.rows - 1)).toNat = 0 := by
      omega
    rw [hk]
    rfl
  · have hk : iclamp startRow 0 (tb.rows - 1) +
        ((iclamp endRow 0 (tb.rows - 1) + 1 - iclamp startRow 0 (tb.rows - 1)).toNat : Int) =
        iclamp endRow 0 (tb.rows - 1) + 1 := by
      omega
    exact regionAux_join tb _ _ _ hk

end Console3.TerminalBuffer

namespace Console3

theorem take_eq_iff_pfx (s pat : List Nat) :
    s.take pat.length = pat ↔ ∃ t, pat ++ t = s := by
  constructor
  · intro h
    refine ⟨s.drop pat.length, ?_⟩
    conv_rhs => rw [← List.take_append_drop pat.length s]
    rw [h]
  · rintro ⟨t, rfl⟩
    exact List.take_left pat t

end Console3

namespace Console3

theorem findSub_front (pat B : List Nat) (h : ∃ t, pat ++ t = B) :
    findSub pat B = some 0 := by
  cases B with
  | nil => rw [findSub, if_pos ((take_eq_iff_pfx [] pat).2 h)]
  | cons b t => rw [findSub, if_pos ((take_eq_iff_pfx (b :: t) pat).2 h)]

end Console3

namespace Console3

theorem findSub_append (pat A B : List Nat) (h : NoOcc pat A B) :
    findSub pat (A ++ B) = Option.map (fun n => n + A.length) (findSub pat B) := by
  induction A with
  | nil =>
    simp only [List.nil_append, List.length_nil]
    cases findSub pat B <;> simp
  | cons a A' ih =>
    have hcond : ¬ ((a :: (A' ++ B)).take pat.length = pat) := by
      intro hc
      refine h 0 (by simp) ⟨(a :: (A' ++ B)).drop pat.length, ?_⟩
      rw [List.drop_zero]
      conv_rhs => rw [show (a :: A') ++ B = a :: (A' ++ B) from rfl,
        ← List.take_append_drop pat.length (a :: (A' ++ B))]
      rw [hc]
    rw [show (a :: A') ++ B = a :: (A' ++ B) from rfl, findSub, if_neg hcond]
    have h' : NoOcc pat A' B := by
      intro i hi hm
      exact h (i + 1) (by simp; omega) (by
        obtain ⟨t, ht⟩ := hm
        exact ⟨t, by rw [show ((a :: A') ++ B).drop (i + 1) = (A' ++ B).drop i from rfl]; exact ht⟩)
    rw [ih h']
    cases findSub pat B with
    | none => rfl
    | some m =>
      show some (m + A'.length + 1) = some (m + (a :: A').length)
      rfl

end Console3

namespace Console3

theorem noOcc_chain (pat X Y B : List Nat) (h1 : NoOcc pat X (Y ++ B))
    (h2 : NoOcc pat Y B) : NoOcc pat (X ++ Y) B := by
  intro i hi hm
  rw [List.length_append] at hi
  rcases Nat.lt_or_ge i X.length with hx | hx
  · refine h1 i hx ?_
    obtain ⟨t, ht⟩ := hm
    exact ⟨t, by rw [← List.append_assoc]; exact ht⟩
  · refine h2 (i - X.length) (by omega) ?_
    obtain ⟨t, ht⟩ := hm
    refine ⟨t, ?_⟩
    rw [List.append_assoc] at ht
    rw [show i = X.length + (i - X.length) from by omega] at ht
    rw [List.drop_append] at ht
    exact ht

end Console3

namespace Console3

theorem noOcc_noQuote (pat A B : List Nat) (hp : ∃ p, pat = 34 :: p)
    (hA : ∀ a ∈ A, a ≠ 34) : NoOcc pat A B := by
  intro i hi hm
  obtain ⟨p, rfl⟩ := hp
  obtain ⟨t, ht⟩ := hm
  have hh : some 34 = (A ++ B)[i]? := by
    have hhd := congrArg List.head? ht
    rw [List.head?_drop] at hhd
    simpa using hhd
  rw [List.getElem?_append_left (show i < A.length from hi)] at hh
  rw [List.getElem?_eq_getElem hi] at hh
  have h34 : A[i] = 34 := Option.some_injective _ hh.symm
  exact hA _ (List.getElem_mem _) h34

end Console3

namespace Console3

theorem noOcc_lit (pat A : List Nat) (h : litMismatch pat A = true) (B : List Nat) :
    NoOcc pat A B := by
  intro i hi hm
  obtain ⟨t, ht⟩ := hm
  rw [litMismatch, List.all_eq_true] at h
  have hi' := h i (List.mem_range.2 hi)
  rw [List.any_eq_true] at hi'
  obtain ⟨j, hjmem, hjne⟩ := hi'
  rw [List.mem_range] at hjmem
  rw [bne_iff_ne] at hjne
  apply hjne
  have hjp : j < pat.length := by omega
  have hja : i + j < A.length := by omega
  have hab : i + j < (A ++ B).length := by rw [List.length_append]; omega
  have h1 : pat[j] = (A ++ B)[i + j] := by
    have := congrArg (fun l => l[j]?) ht
    simp only at this
    rw [List.getElem?_append_left hjp] at this
    rw [List.getElem?_drop] at this
    rw [List.getElem?_eq_getElem hjp] at this
    rw [@List.getElem?_eq_getElem _ (A ++ B) (i + j) hab] at this
    exact Option.some_injective _ this
  rw [List.getElem_append_left hja] at h1
  rw [List.getD_eq_getElem _ _ hjp, List.getD_eq_getElem _ _ hja]
  exact h1

end Console3

namespace Console3

/-- Alignment through the first quote: if two quote-free segments are each
followed by a quote, a prefix relation forces them to coincide. -/
theorem pfx_align (x : List Nat) : ∀ y r s : List Nat, (∀ a ∈ x, a ≠ 34) →
    (∀ a ∈ y, a ≠ 34) → (∃ t, (x ++ 34 :: r) ++ t = y ++ 34 :: s) →
    x = y ∧ ∃ t, r ++ t = s := by
  induction x with
  | nil =>
    intro y r s _ hy ⟨t, ht⟩
    cases y with
    | nil =>
      simp only [List.nil_append, List.cons_append, List.cons.injEq] at ht
      exact ⟨rfl, t, ht.2⟩
    | cons b y' =>
      exfalso
      simp only [List.nil_append, List.cons_append, List.cons.injEq] at ht
      exact hy b (by simp) ht.1.symm
  | cons a x' ih =>
    intro y r s hx hy ⟨t, ht⟩
    cases y with
    | nil =>
      exfalso
      simp only [List.cons_append, List.nil_append, List.cons.injEq] at ht
      exact hx a (by simp) ht.1
    | cons b y' =>
      simp only [List.cons_append, List.cons.injEq] at ht
      obtain ⟨hab, ht'⟩ := ht
      have := ih y' r s (fun a ha => hx a (by simp [ha]))
        (fun a ha => hy a (by simp [ha]))
        ⟨t, by simpa [List.cons_append] using ht'⟩
      exact ⟨by rw [hab, this.1], this.2⟩

end Console3

namespace Console3

/-- A search pattern of the form a quoted key followed by a colon cannot
occur starting inside a quoted value chunk whose continuation starts with a
comma. -/
theorem noOcc_value (key tail v B : List Nat) (hkey : ∀ a ∈ key, a ≠ 34)
    (hk0 : key ≠ []) (hk44 : key.headD 0 ≠ 44) (hv : ∀ a ∈ v, a ≠ 34) :
    NoOcc (34 :: key ++ 34 :: 58 :: tail) (34 :: v ++ [34]) (44 :: B) := by
  intro i hi hm
  obtain ⟨t, ht⟩ := hm
  rw [show (34 :: key ++ 34 :: 58 :: tail) = 34 :: (key ++ 34 :: 58 :: tail)
    from by simp] at ht
  have hlist : (34 :: v ++ [34]) ++ 44 :: B = 34 :: (v ++ 34 :: 44 :: B) := by
    simp
  rw [hlist] at ht
  simp only [List.length_cons, List.length_append, List.length_cons,
    List.length_nil] at hi
  rcases Nat.eq_zero_or_pos i with hz | hpos
  · subst hz
    rw [List.drop_zero] at ht
    simp only [List.cons_append, List.cons.injEq] at ht
    obtain ⟨ha, hb⟩ := ht
    have := pfx_align key v (58 :: tail) (44 :: B) hkey hv
      ⟨t, by simpa [List.append_assoc] using hb⟩
    obtain ⟨-, t', ht'⟩ := this
    simp only [List.cons_append, List.cons.injEq] at ht'
    omega
  · rcases Nat.lt_or_ge i (v.length + 1) with hlt | hge
    · have hidx : i - 1 < v.length := by omega
      have hh := congrArg List.head? ht
      rw [List.head?_drop] at hh
      simp only [List.cons_append, List.head?_cons] at hh
      rw [show (34 :: (v ++ 34 :: 44 :: B))[i]? = (v ++ 34 :: 44 :: B)[i - 1]? from by
        cases i with
        | zero => omega
        | succ k => simp] at hh
      rw [List.getElem?_append_left hidx, List.getElem?_eq_getElem hidx] at hh
      exact hv _ (List.getElem_mem _) (Option.some_injective _ hh).symm
    · have hieq : i = v.length + 1 := by omega
      subst hieq
      rw [show (34 :: (v ++ 34 :: 44 :: B)).drop (v.length + 1)
          = (v ++ 34 :: 44 :: B).drop v.length from rfl] at ht
      rw [show (v ++ 34 :: 44 :: B).drop v.length = 34 :: 44 :: B from by
        rw [show v.length = v.length + 0 from rfl, List.drop_append]
        rfl] at ht
      simp only [List.cons_append, List.cons.injEq] at ht
      obtain ⟨-, hb⟩ := ht
      cases key with
      | nil => exact hk0 rfl
      | cons k0 key' =>
        simp only [List.cons_append, List.cons.injEq] at hb
        simp only [List.headD_cons] at hk44
        exact hk44 hb.1

end Console3

namespace Console3

/-- `std::string::find` of a lone quote in a quote-free segment followed by
a quote finds exactly the closing quote. -/
theorem findSub_quote (v : List Nat) : ∀ w : List Nat, (∀ a ∈ v, a ≠ 34) →
    findSub [34] (v ++ 34 :: w) = some v.length := by
  induction v with
  | nil =>
    intro w _
    rw [List.nil_append, findSub, if_pos (by simp)]
    rfl
  | cons a v' ih =>
    intro w hv
    rw [List.cons_append, findSub, if_neg (by
      simp only [List.length_cons, List.length_nil, List.take_succ_cons,
        List.take_zero]
      intro hc
      exact hv a (by simp) (by injection hc))]
    rw [ih w (fun a ha => hv a (by simp [ha]))]
    rfl

end Console3

namespace Console3

/-- `findString` ignores a leading segment of the document in which its
search key does not occur. -/
theorem findString_skip (key X J : List Nat)
    (hno : NoOcc (34 :: key ++ [34, 58, 32, 34]) X J) :
    findString (X ++ J) key = findString J key := by
  simp only [findString]
  rw [findSub_append _ _ _ hno]
  cases hfs : findSub (34 :: key ++ [34, 58, 32, 34]) J with
  | none => simp
  | some pos =>
    simp only [Option.map_some, Option.map_some']
    have harr : pos + X.length + (34 :: key ++ [34, 58, 32, 34]).length
        = X.length + (pos + (34 :: key ++ [34, 58, 32, 34]).length) := by
      omega
    rw [harr, List.drop_append]

end Console3

namespace Console3

/-- `findInt` ignores a leading segment of the document in which its
search key does not occur. -/
theorem findInt_skip (key X J : List Nat)
    (hno : NoOcc (34 :: key ++ [34, 58, 32]) X J) :
    findInt (X ++ J) key = findInt J key := by
  simp only [findInt]
  rw [findSub_append _ _ _ hno]
  cases hfs : findSub (34 :: key ++ [34, 58, 32]) J with
  | none => simp
  | some pos =>
    simp only [Option.map_some, Option.map_some']
    have harr : pos + X.length + (34 :: key ++ [34, 58, 32]).length
        = X.length + (pos + (34 :: key ++ [34, 58, 32]).length) := by
      omega
    rw [harr, List.drop_append]

end Console3

namespace Console3

/-- When the document starts with the key line itself, `findString`
extracts exactly the quote-free value. -/
theorem findString_found (key v X : List Nat) (hv : ∀ a ∈ v, a ≠ 34) :
    findString (keyChunk key ++ (strValueChunk v ++ X)) key = v := by
  have hshape : keyChunk key ++ (strValueChunk v ++ X)
      = (34 :: key ++ [34, 58, 32, 34]) ++ (v ++ 34 :: X) := by
    simp [keyChunk, strValueChunk]
  rw [hshape]
  simp only [findString]
  rw [findSub_front _ _ ⟨v ++ 34 :: X, rfl⟩]
  simp only [Nat.zero_add, List.drop_left]
  rw [findSub_quote v X hv]
  exact List.take_left v (34 :: X)

end Console3

namespace Console3

/-- When the document starts with the key chunk itself, `findInt` parses
what follows. -/
theorem findInt_found (key T : List Nat) :
    findInt (keyChunk key ++ T) key = atoiModel T := by
  simp only [findInt, keyChunk]
  rw [findSub_front _ _ ⟨T, rfl⟩]
  simp only [Nat.zero_add, List.drop_left]

end Console3

namespace Console3

/-- Every byte of `std::to_string` of a natural number is a decimal digit. -/
theorem natRepr_digits (n : Nat) : ∀ d ∈ natRepr n, 48 ≤ d ∧ d ≤ 57 := by
  induction n using Nat.strong_induction_on with
  | _ n ih =>
    intro d hd
    rw [natRepr] at hd
    by_cases h : n < 10
    · rw [if_pos h] at hd
      simp only [List.mem_singleton] at hd
      omega
    · rw [if_neg h] at hd
      rcases List.mem_append.1 hd with h1 | h2
      · exact ih (n / 10) (by omega) d h1
      · simp only [List.mem_singleton] at h2
        have : n % 10 < 10 := Nat.mod_lt _ (by omega)
        omega

end Console3

namespace Console3

/-- `std::to_string` of a natural number is nonempty and starts with a
digit. -/
theorem natRepr_cons (n : Nat) :
    ∃ d ds, natRepr n = d :: ds ∧ 48 ≤ d ∧ d ≤ 57 := by
  induction n using Nat.strong_induction_on with
  | _ n ih =>
    rw [natRepr]
    by_cases h : n < 10
    · rw [if_pos h]
      exact ⟨48 + n, [], rfl, by omega, by omega⟩
    · rw [if_neg h]
      obtain ⟨d, ds, hds, h1, h2⟩ := ih (n / 10) (by omega)
      exact ⟨d, ds ++ [48 + n % 10], by rw [hds]; rfl, h1, h2⟩

end Console3

namespace Console3

/-- The digit loop of `atoi` consumes exactly the digits of a rendered
number, accumulating its value. -/
theorem parseDigitsAux_natRepr (n : Nat) : ∀ acc : Nat, ∀ R : List Nat,
    parseDigitsAux (natRepr n ++ R) acc
      = parseDigitsAux R (acc * 10 ^ (natRepr n).length + n) := by
  induction n using Nat.strong_induction_on with
  | _ n ih =>
    intro acc R
    rw [natRepr]
    by_cases h : n < 10
    · rw [if_pos h]
      rw [show ([48 + n] ++ R) = (48 + n) :: R from rfl]
      rw [parseDigitsAux, if_pos (by omega)]
      simp only [List.length_singleton, pow_one]
      rw [show acc * 10 + (48 + n - 48) = acc * 10 + n from by omega]
    · rw [if_neg h]
      rw [List.append_assoc, ih (n / 10) (by omega) acc ([48 + n % 10] ++ R)]
      rw [show ([48 + n % 10] ++ R) = (48 + n % 10) :: R from rfl]
      rw [parseDigitsAux, if_pos (by have : n % 10 < 10 := Nat.mod_lt _ (by omega); omega)]
      congr 1
      have hmod : n % 10 < 10 := Nat.mod_lt _ (by omega)
      have hdm : 10 * (n / 10) + n % 10 = n := Nat.div_add_mod n 10
      rw [List.length_append, List.length_singleton, pow_add, pow_one]
      set P := 10 ^ (natRepr (n / 10)).length with hP
      rw [show 48 + n % 10 - 48 = n % 10 from by omega]
      rw [show acc * (P * 10) = acc * P * 10 from by ring]
      omega

end Console3

namespace Console3

/-- The digit loop stops immediately on a non-digit head. -/
theorem parseDigitsAux_stop (R : List Nat) (acc : Nat) (h : R.headD 0 < 48) :
    parseDigitsAux R acc = acc := by
  cases R with
  | nil => rfl
  | cons b t =>
    simp only [List.headD_cons] at h
    rw [parseDigitsAux, if_neg (by omega)]

end Console3

namespace Console3

/-- `atoi` recovers a natural number rendered by `std::to_string` when the
following byte is a non-digit. -/
theorem atoiModel_natRepr (n : Nat) (R : List Nat) (hR : R.headD 0 < 48) :
    atoiModel (natRepr n ++ R) = (n : Int) := by
  obtain ⟨d, ds, hnr, hd1, hd2⟩ := natRepr_cons n
  rw [atoiModel.eq_def, hnr]
  rw [show ((d :: ds) ++ R) = d :: (ds ++ R) from rfl]
  rw [List.dropWhile_cons]
  rw [show isSpaceByte d = false from by
    simp only [isSpaceByte, decide_eq_false_iff_not]
    omega]
  simp only [Bool.false_eq_true, if_false]
  rw [if_neg (by omega), if_neg (by omega)]
  rw [show d :: (ds ++ R) = (d :: ds) ++ R from rfl, ← hnr]
  rw [parseDigitsAux_natRepr n 0 R, Nat.zero_mul, Nat.zero_add]
  rw [parseDigitsAux_stop R n hR]

end Console3

namespace Console3

/-- `atoi` recovers an `int` rendered by `std::to_string` when the
following byte is a non-digit. -/
theorem atoiModel_intRepr (v : Int) (R : List Nat) (hR : R.headD 0 < 48) :
    atoiModel (intRepr v ++ R) = v := by
  by_cases hv : v < 0
  · rw [intRepr, if_pos hv]
    rw [show ((45 :: natRepr (-v).toNat) ++ R) = 45 :: (natRepr (-v).toNat ++ R)
      from rfl]
    rw [atoiModel.eq_def, List.dropWhile_cons]
    rw [show isSpaceByte 45 = false from by decide]
    simp only [Bool.false_eq_true, if_false, if_true, eq_self_iff_true]
    rw [parseDigitsAux_natRepr _ 0 R, Nat.zero_mul, Nat.zero_add]
    rw [parseDigitsAux_stop R _ hR]
    omega
  · rw [intRepr, if_neg hv]
    rw [atoiModel_natRepr v.toNat R hR]
    omega

end Console3

namespace Console3

/-- No byte of a rendered number is a quote. -/
theorem intRepr_ne34 (v : Int) : ∀ a ∈ intRepr v, a ≠ 34 := by
  intro a ha
  rw [intRepr] at ha
  by_cases hv : v < 0
  · rw [if_pos hv] at ha
    rcases List.mem_cons.1 ha with h1 | h2
    · omega
    · have := natRepr_digits _ _ h2
      omega
  · rw [if_neg hv] at ha
    have := natRepr_digits _ _ ha
    omega

end Console3

namespace Console3

/-- No byte of a rendered natural number is a quote. -/
theorem natRepr_ne34 (n : Nat) : ∀ a ∈ natRepr n, a ≠ 34 := by
  intro a ha
  have := natRepr_digits _ _ ha
  omega

end Console3

namespace Console3

/-- `findString` skips a whole serialized string line for a different
key. -/
theorem findString_skip_lineS (key lk v J : List Nat)
    (hkey : ∀ a ∈ key, a ≠ 34) (hk0 : key ≠ []) (hk44 : key.headD 0 ≠ 44)
    (hlit : litMismatch (34 :: key ++ [34, 58, 32, 34]) (keyChunk lk) = true)
    (hv : ∀ a ∈ v, a ≠ 34) :
    findString (keyChunk lk ++ (strValueChunk v ++ (sepChunk ++ J))) key
      = findString J key := by
  have hB : sepChunk ++ J = 44 :: ([10, 32, 32] ++ J) :=
    List.cons_append 44 [10, 32, 32] J
  have hA : strValueChunk v = 34 :: v ++ [34] := rfl
  rw [findString_skip key (keyChunk lk) _ (noOcc_lit _ _ hlit _)]
  rw [hA, hB]
  rw [findString_skip key (34 :: v ++ [34]) (44 :: ([10, 32, 32] ++ J))
    (noOcc_value key [32, 34] v ([10, 32, 32] ++ J) hkey hk0 hk44 hv)]
  rw [← hB]
  exact findString_skip key sepChunk J
    (noOcc_noQuote _ _ _
      ⟨key ++ [34, 58, 32, 34], List.cons_append 34 key [34, 58, 32, 34]⟩
      (by decide))

end Console3

namespace Console3

/-- `findInt` skips a whole serialized string line for a different key. -/
theorem findInt_skip_lineS (key lk v J : List Nat)
    (hkey : ∀ a ∈ key, a ≠ 34) (hk0 : key ≠ []) (hk44 : key.headD 0 ≠ 44)
    (hlit : litMismatch (34 :: key ++ [34, 58, 32]) (keyChunk lk) = true)
    (hv : ∀ a ∈ v, a ≠ 34) :
    findInt (keyChunk lk ++ (strValueChunk v ++ (sepChunk ++ J))) key
      = findInt J key := by
  have hB : sepChunk ++ J = 44 :: ([10, 32, 32] ++ J) :=
    List.cons_append 44 [10, 32, 32] J
  have hA : strValueChunk v = 34 :: v ++ [34] := rfl
  rw [findInt_skip key (keyChunk lk) _ (noOcc_lit _ _ hlit _)]
  rw [hA, hB]
  rw [findInt_skip key (34 :: v ++ [34]) (44 :: ([10, 32, 32] ++ J))
    (noOcc_value key [32] v ([10, 32, 32] ++ J) hkey hk0 hk44 hv)]
  rw [← hB]
  exact findInt_skip key sepChunk J
    (noOcc_noQuote _ _ _
      ⟨key ++ [34, 58, 32], List.cons_append 34 key [34, 58, 32]⟩ (by decide))

end Console3

namespace Console3

/-- `findInt` skips a whole serialized numeric line for a different key. -/
theorem findInt_skip_lineI (key lk num J : List Nat)
    (hlit : litMismatch (34 :: key ++ [34, 58, 32]) (keyChunk lk) = true)
    (hnum : ∀ a ∈ num, a ≠ 34) :
    findInt (keyChunk lk ++ (num ++ (sepChunk ++ J))) key = findInt J key := by
  rw [findInt_skip key (keyChunk lk) _ (noOcc_lit _ _ hlit _)]
  rw [findInt_skip key num (sepChunk ++ J)
    (noOcc_noQuote _ _ _
      ⟨key ++ [34, 58, 32], List.cons_append 34 key [34, 58, 32]⟩ hnum)]
  exact findInt_skip key sepChunk J
    (noOcc_noQuote _ _ _
      ⟨key ++ [34, 58, 32], List.cons_append 34 key [34, 58, 32]⟩ (by decide))

end Console3

namespace Console3

/-- The separator's head byte is a comma, not a digit. -/
theorem headD_sep (X : List Nat) : (sepChunk ++ X).headD 0 < 48 := by
  have h : (sepChunk ++ X).headD 0 = 44 := rfl
  omega

end Console3

namespace Console3

/-- The serialized document, reassociated into its line chunks. -/
theorem Serialize_chunks (c : SessionConfig) :
    Serialize c =
      [123, 10, 32, 32] ++ (keyChunk shellKey ++ (strValueChunk c.shell ++ (sepChunk ++ (keyChunk argsKey ++ (strValueChunk c.args ++ (sepChunk ++ (keyChunk workingDirKey ++ (strValueChunk c.workingDir ++ (sepChunk ++ (keyChunk titleKey ++ (strValueChunk c.title ++ (sepChunk ++ (keyChunk profileNameKey ++ (strValueChunk c.profileName ++ (sepChunk ++ (keyChunk rowsKey ++ (intRepr c.rows ++ (sepChunk ++ (keyChunk colsKey ++ (intRepr c.cols ++ (sepChunk ++ (keyChunk scrollbackLinesKey ++ (natRepr c.scrollbackLines ++ (sepChunk ++ (keyChunk tabIndexKey ++ (intRepr c.tabIndex ++ ([10, 125]))))))))))))))))))))))))))) := by
  simp only [Serialize, List.append_assoc]

end Console3

namespace Console3

/-- Extracting the `shell` field from the serialized document. -/
theorem findString_Serialize_shell (c : SessionConfig) (h1 : ∀ a ∈ c.shell, a ≠ 34) (h2 : ∀ a ∈ c.args, a ≠ 34)
    (h3 : ∀ a ∈ c.workingDir, a ≠ 34) (h4 : ∀ a ∈ c.title, a ≠ 34)
    (h5 : ∀ a ∈ c.profileName, a ≠ 34) :
    findString (Serialize c) shellKey = c.shell := by
  rw [Serialize_chunks]
  rw [findString_skip shellKey [123, 10, 32, 32] _
    (noOcc_noQuote _ _ _ ⟨shellKey ++ [34, 58, 32, 34],
      List.cons_append 34 shellKey [34, 58, 32, 34]⟩ (by decide))]
  exact findString_found shellKey c.shell _ h1

end Console3

namespace Console3

/-- Extracting the `args` field from the serialized document. -/
theorem findString_Serialize_args (c : SessionConfig) (h1 : ∀ a ∈ c.shell, a ≠ 34) (h2 : ∀ a ∈ c.args, a ≠ 34)
    (h3 : ∀ a ∈ c.workingDir, a ≠ 34) (h4 : ∀ a ∈ c.title, a ≠ 34)
    (h5 : ∀ a ∈ c.profileName, a ≠ 34) :
    findString (Serialize c) argsKey = c.args := by
  rw [Serialize_chunks]
  rw [findString_skip argsKey [123, 10, 32, 32] _
    (noOcc_noQuote _ _ _ ⟨argsKey ++ [34, 58, 32, 34],
      List.cons_append 34 argsKey [34, 58, 32, 34]⟩ (by decide))]
  rw [findString_skip_lineS argsKey shellKey c.shell _
    (by decide) (by decide) (by decide) (by decide) h1]
  exact findString_found argsKey c.args _ h2

end Console3

namespace Console3

/-- Extracting the `workingDir` field from the serialized document. -/
theorem findString_Serialize_workingDir (c : SessionConfig) (h1 : ∀ a ∈ c.shell, a ≠ 34) (h2 : ∀ a ∈ c.args, a ≠ 34)
    (h3 : ∀ a ∈ c.workingDir, a ≠ 34) (h4 : ∀ a ∈ c.title, a ≠ 34)
    (h5 : ∀ a ∈ c.profileName, a ≠ 34) :
    findString (Serialize c) workingDirKey = c.workingDir := by
  rw [Serialize_chunks]
  rw [findString_skip workingDirKey [123, 10, 32, 32] _
    (noOcc_noQuote _ _ _ ⟨workingDirKey ++ [34, 58, 32, 34],
      List.cons_append 34 workingDirKey [34, 58, 32, 34]⟩ (by decide))]
  rw [findString_skip_lineS workingDirKey shellKey c.shell _
    (by decide) (by decide) (by decide) (by decide) h1]
  rw [findString_skip_lineS workingDirKey argsKey c.args _
    (by decide) (by decide) (by decide) (by decide) h2]
  exact findString_found workingDirKey c.workingDir _ h3

end Console3

namespace Console3

/-- Extracting the `title` field from the serialized document. -/
theorem findString_Serialize_title (c : SessionConfig) (h1 : ∀ a ∈ c.shell, a ≠ 34) (h2 : ∀ a ∈ c.args, a ≠ 34)
    (h3 : ∀ a ∈ c.workingDir, a ≠ 34) (h4 : ∀ a ∈ c.title, a ≠ 34)
    (h5 : ∀ a ∈ c.profileName, a ≠ 34) :
    findString (Serialize c) titleKey = c.title := by
  rw [Serialize_chunks]
  rw [findString_skip titleKey [123, 10, 32, 32] _
    (noOcc_noQuote _ _ _ ⟨titleKey ++ [34, 58, 32, 34],
      List.cons_append 34 titleKey [34, 58, 32, 34]⟩ (by decide))]
  rw [findString_skip_lineS titleKey shellKey c.shell _
    (by decide) (by decide) (by decide) (by decide) h1]
  rw [findString_skip_lineS titleKey argsKey c.args _
    (by decide) (by decide) (by decide) (by decide) h2]
  rw [findString_skip_lineS titleKey workingDirKey c.workingDir _
    (by decide) (by decide) (by decide) (by decide) h3]
  exact findString_found titleKey c.title _ h4

end Console3

namespace Console3

/-- Extracting the `profileName` field from the serialized document. -/
theorem findString_Serialize_profileName (c : SessionConfig) (h1 : ∀ a ∈ c.shell, a ≠ 34) (h2 : ∀ a ∈ c.args, a ≠ 34)
    (h3 : ∀ a ∈ c.workingDir, a ≠ 34) (h4 : ∀ a ∈ c.title, a ≠ 34)
    (h5 : ∀ a ∈ c.profileName, a ≠ 34) :
    findString (Serialize c) profileNameKey = c.profileName := by
  rw [Serialize_chunks]
  rw [findString_skip profileNameKey [123, 10, 32, 32] _
    (noOcc_noQuote _ _ _ ⟨profileNameKey ++ [34, 58, 32, 34],
      List.cons_append 34 profileNameKey [34, 58, 32, 34]⟩ (by decide))]
  rw [findString_skip_lineS profileNameKey shellKey c.shell _
    (by decide) (by decide) (by decide) (by decide) h1]
  rw [findString_skip_lineS profileNameKey argsKey c.args _
    (by decide) (by decide) (by decide) (by decide) h2]
  rw [findString_skip_lineS profileNameKey workingDirKey c.workingDir _
    (by decide) (by decide) (by decide) (by decide) h3]
  rw [findString_skip_lineS profileNameKey titleKey c.title _
    (by decide) (by decide) (by decide) (by decide) h4]
  exact findString_found profileNameKey c.profileName _ h5

end Console3

namespace Console3

/-- Extracting the `rows` field from the serialized document. -/
theorem findInt_Serialize_rows (c : SessionConfig) (h1 : ∀ a ∈ c.shell, a ≠ 34) (h2 : ∀ a ∈ c.args, a ≠ 34)
    (h3 : ∀ a ∈ c.workingDir, a ≠ 34) (h4 : ∀ a ∈ c.title, a ≠ 34)
    (h5 : ∀ a ∈ c.profileName, a ≠ 34) :
    findInt (Serialize c) rowsKey = c.rows := by
  rw [Serialize_chunks]
  rw [findInt_skip rowsKey [123, 10, 32, 32] _
    (noOcc_noQuote _ _ _ ⟨rowsKey ++ [34, 58, 32],
      List.cons_append 34 rowsKey [34, 58, 32]⟩ (by decide))]
  rw [findInt_skip_lineS rowsKey shellKey c.shell _
    (by decide) (by decide) (by decide) (by decide) h1]
  rw [findInt_skip_lineS rowsKey argsKey c.args _
    (by decide) (by decide) (by decide) (by decide) h2]
  rw [findInt_skip_lineS rowsKey workingDirKey c.workingDir _
    (by decide) (by decide) (by decide) (by decide) h3]
  rw [findInt_skip_lineS rowsKey titleKey c.title _
    (by decide) (by decide) (by decide) (by decide) h4]
  rw [findInt_skip_lineS rowsKey profileNameKey c.profileName _
    (by decide) (by decide) (by decide) (by decide) h5]
  rw [findInt_found rowsKey _]
  exact atoiModel_intRepr c.rows _ (headD_sep _)

end Console3

namespace Console3

/-- Extracting the `cols` field from the serialized document. -/
theorem findInt_Serialize_cols (c : SessionConfig) (h1 : ∀ a ∈ c.shell, a ≠ 34) (h2 : ∀ a ∈ c.args, a ≠ 34)
    (h3 : ∀ a ∈ c.workingDir, a ≠ 34) (h4 : ∀ a ∈ c.title, a ≠ 34)
    (h5 : ∀ a ∈ c.profileName, a ≠ 34) :
    findInt (Serialize c) colsKey = c.cols := by
  rw [Serialize_chunks]
  rw [findInt_skip colsKey [123, 10, 32, 32] _
    (noOcc_noQuote _ _ _ ⟨colsKey ++ [34, 58, 32],
      List.cons_append 34 colsKey [34, 58, 32]⟩ (by decide))]
  rw [findInt_skip_lineS colsKey shellKey c.shell _
    (by decide) (by decide) (by decide) (by decide) h1]
  rw [findInt_skip_lineS colsKey argsKey c.args _
    (by decide) (by decide) (by decide) (by decide) h2]
  rw [findInt_skip_lineS colsKey workingDirKey c.workingDir _
    (by decide) (by decide) (by decide) (by decide) h3]
  rw [findInt_skip_lineS colsKey titleKey c.title _
    (by decide) (by decide) (by decide) (by decide) h4]
  rw [findInt_skip_lineS colsKey profileNameKey c.profileName _
    (by decide) (by decide) (by decide) (by decide) h5]
  rw [findInt_skip_lineI colsKey rowsKey (intRepr c.rows) _
    (by decide) (intRepr_ne34 c.rows)]
  rw [findInt_found colsKey _]
  exact atoiModel_intRepr c.cols _ (headD_sep _)

end Console3

namespace Console3

/-- Extracting the `scrollbackLines` field from the serialized document. -/
theorem findInt_Serialize_scrollbackLines (c : SessionConfig) (h1 : ∀ a ∈ c.shell, a ≠ 34) (h2 : ∀ a ∈ c.args, a ≠ 34)
    (h3 : ∀ a ∈ c.workingDir, a ≠ 34) (h4 : ∀ a ∈ c.title, a ≠ 34)
    (h5 : ∀ a ∈ c.profileName, a ≠ 34) :
    findInt (Serialize c) scrollbackLinesKey = (c.scrollbackLines : Int) := by
  rw [Serialize_chunks]
  rw [findInt_skip scrollbackLinesKey [123, 10, 32, 32] _
    (noOcc_noQuote _ _ _ ⟨scrollbackLinesKey ++ [34, 58, 32],
      List.cons_append 34 scrollbackLinesKey [34, 58, 32]⟩ (by decide))]
  rw [findInt_skip_lineS scrollbackLinesKey shellKey c.shell _
    (by decide) (by decide) (by decide) (by decide) h1]
  rw [findInt_skip_lineS scrollbackLinesKey argsKey c.args _
    (by decide) (by decide) (by decide) (by decide) h2]
  rw [findInt_skip_lineS scrollbackLinesKey workingDirKey c.workingDir _
    (by decide) (by decide) (by decide) (by decide) h3]
  rw [findInt_skip_lineS scrollbackLinesKey titleKey c.title _
    (by decide) (by decide) (by decide) (by decide) h4]
  rw [findInt_skip_lineS scrollbackLinesKey profileNameKey c.profileName _
    (by decide) (by decide) (by decide) (by decide) h5]
  rw [findInt_skip_lineI scrollbackLinesKey rowsKey (intRepr c.rows) _
    (by decide) (intRepr_ne34 c.rows)]
  rw [findInt_skip_lineI scrollbackLinesKey colsKey (intRepr c.cols) _
    (by decide) (intRepr_ne34 c.cols)]
  rw [findInt_found scrollbackLinesKey _]
  exact atoiModel_natRepr c.scrollbackLines _ (headD_sep _)

end Console3

namespace Console3

/-- Extracting the `tabIndex` field from the serialized document. -/
theorem findInt_Serialize_tabIndex (c : SessionConfig) (h1 : ∀ a ∈ c.shell, a ≠ 34) (h2 : ∀ a ∈ c.args, a ≠ 34)
    (h3 : ∀ a ∈ c.workingDir, a ≠ 34) (h4 : ∀ a ∈ c.title, a ≠ 34)
    (h5 : ∀ a ∈ c.profileName, a ≠ 34) :
    findInt (Serialize c) tabIndexKey = c.tabIndex := by
  rw [Serialize_chunks]
  rw [findInt_skip tabIndexKey [123, 10, 32, 32] _
    (noOcc_noQuote _ _ _ ⟨tabIndexKey ++ [34, 58, 32],
      List.cons_append 34 tabIndexKey [34, 58, 32]⟩ (by decide))]
  rw [findInt_skip_lineS tabIndexKey shellKey c.shell _
    (by decide) (by decide) (by decide) (by decide) h1]
  rw [findInt_skip_lineS tabIndexKey argsKey c.args _
    (by decide) (by decide) (by decide) (by decide) h2]
  rw [findInt_skip_lineS tabIndexKey workingDirKey c.workingDir _
    (by decide) (by decide) (by decide) (by decide) h3]
  rw [findInt_skip_lineS tabIndexKey titleKey c.title _
    (by decide) (by decide) (by decide) (by decide) h4]
  rw [findInt_skip_lineS tabIndexKey profileNameKey c.profileName _
    (by decide) (by decide) (by decide) (by decide) h5]
  rw [findInt_skip_lineI tabIndexKey rowsKey (intRepr c.rows) _
    (by decide) (intRepr_ne34 c.rows)]
  rw [findInt_skip_lineI tabIndexKey colsKey (intRepr c.cols) _
    (by decide) (intRepr_ne34 c.cols)]
  rw [findInt_skip_lineI tabIndexKey scrollbackLinesKey (natRepr c.scrollbackLines) _
    (by decide) (natRepr_ne34 c.scrollbackLines)]
  rw [findInt_found tabIndexKey _]
  exact atoiModel_intRepr c.tabIndex [10, 125] (by decide)

end Console3

namespace Console3

/-- Casting a small natural back and forth through `int` and `size_t` is
the identity. -/
theorem intToSizeT_ofNat (n : Nat) (h : n < 2 ^ 31) :
    intToSizeT (n : Int) = n := by
  simp only [intToSizeT, W64]
  omega

end Console3

namespace Console3

/-- C8: corrected.  The spec claims `Serialize` then `Deserialize` yields
an equivalent `SessionConfig` for every config.  Because the writer
performs no string escaping and the reader substitutes defensive defaults
(`shell` empty → `cmd.exe`, `rows`/`cols` nonpositive → 25/80,
`scrollbackLines` 0 → 10000), the round trip holds only for configurations
whose string fields contain no quote byte, whose shell is nonempty, and
whose numeric fields are positive and within `int` range; under those
hypotheses every field round-trips to an equal value. -/
theorem Deserialize_Serialize (c : SessionConfig)
    (h0 : c.shell ≠ []) (h1 : ∀ a ∈ c.shell, a ≠ 34)
    (h2 : ∀ a ∈ c.args, a ≠ 34) (h3 : ∀ a ∈ c.workingDir, a ≠ 34)
    (h4 : ∀ a ∈ c.title, a ≠ 34) (h5 : ∀ a ∈ c.profileName, a ≠ 34)
    (hr : 0 < c.rows) (hc : 0 < c.cols) (hs : 0 < c.scrollbackLines)
    (hrB : c.rows < 2 ^ 31) (hcB : c.cols < 2 ^ 31)
    (hsB : c.scrollbackLines < 2 ^ 31)
    (htB : -(2 ^ 31) < c.tabIndex ∧ c.tabIndex < 2 ^ 31) :
    Deserialize (Serialize c) = c := by
  unfold Deserialize
  rw [findString_Serialize_shell c h1 h2 h3 h4 h5,
      findString_Serialize_args c h1 h2 h3 h4 h5,
      findString_Serialize_workingDir c h1 h2 h3 h4 h5,
      findString_Serialize_title c h1 h2 h3 h4 h5,
      findString_Serialize_profileName c h1 h2 h3 h4 h5,
      findInt_Serialize_rows c h1 h2 h3 h4 h5,
      findInt_Serialize_cols c h1 h2 h3 h4 h5,
      findInt_Serialize_scrollbackLines c h1 h2 h3 h4 h5,
      findInt_Serialize_tabIndex c h1 h2 h3 h4 h5]
  rw [intToSizeT_ofNat c.scrollbackLines hsB]
  simp only []
  rw [if_neg h0]
  simp only []
  rw [if_neg (by omega : ¬ c.rows ≤ 0)]
  simp only []
  rw [if_neg (by omega : ¬ c.cols ≤ 0)]
  simp only []
  rw [if_neg (by omega : ¬ c.scrollbackLines = 0)]

end Console3

namespace Console3

/-- C1: corrected.  The spec claims a parser scrollback push lands in the
grid's scrollback deque (so 30 lines fed to a 10-row grid leave
`min 20 cap` lines in scrollback).  In the code `Session::Start` registers
only the damage and termprop callbacks and nothing in the repository ever
calls `SetScrollbackPushCallback`, so `VTermWrapper::OnScrollbackPush`
finds the callback unset and drops the converted row: scrollback-push
events leave the session state — in particular the scrollback deque —
completely unchanged. -/
theorem scrollbackPush_events_leave_session_unchanged (s : SessionSt)
    (pushes : List (List TermCell)) :
    Session.sessionRun s (pushes.map VTermEvent.scrollbackPush) = some s := by
  induction pushes with
  | nil => rfl
  | cons p ps ih =>
    simpa [Session.sessionRun, Session.sessionStep] using ih

end Console3

namespace Console3

/-- C1 counterexample: after 20 scrollback-push notifications (what the
parser emits when 30 lines scroll through a 10-row screen) the scrollback
deque still has size 0, not `min 20 10000` as the spec predicts. -/
theorem scrollbackPush_dropped_counterexample :
    Session.sessionRun c1Session
        (List.replicate 20 (VTermEvent.scrollbackPush [])) = some c1Session ∧
      TerminalBuffer.GetScrollbackSize c1Buffer ≠ min 20 10000 := by
  exact ⟨rfl, by decide⟩

end Console3

namespace Console3

/-- C2: corrected.  The spec claims `Session::OnPtyOutput` retries until
every byte is accepted.  The code performs exactly one `RingBuffer::Write`
and discards its return value, so only `min n free` bytes enter the ring
and the rest are dropped.  (The retry loop the spec describes exists only
in the unused `IoThread` helper class.) -/
theorem onPtyOutput_single_write (ring : RingBuffer) (data : List Nat)
    (k n : Nat) (h : RingBuffer.WFp ring k n) :
    RingBuffer.queue (Session.OnPtyOutput ring data) =
      RingBuffer.queue ring ++ data.take (min data.length (ring.capacity - 1 - n)) :=
  (RingBuffer.Write_spec ring data k n h).2.2.2.2

end Console3

namespace Console3

/-- C2 witness: a write into an empty capacity-4 ring. -/
theorem onPtyOutput_single_write_witness :
    RingBuffer.queue (Session.OnPtyOutput (RingBuffer.init 4) [1, 2]) =
      RingBuffer.queue (RingBuffer.init 4) ++
        [1, 2].take (min ([1, 2] : List Nat).length ((RingBuffer.init 4).capacity - 1 - 0)) :=
  onPtyOutput_single_write (RingBuffer.init 4) [1, 2] 2 0
    (by unfold RingBuffer.WFp; decide)

end Console3

namespace Console3

/-- C2 counterexample: with the ring full (usable capacity 3 of a
capacity-4 ring), a delivered byte is dropped entirely — the ring state and
its queue are unchanged, contradicting the spec's `no output byte is
dropped`. -/
theorem onPtyOutput_full_ring_counterexample :
    RingBuffer.Available c2FullRing = 0 ∧
      Session.OnPtyOutput c2FullRing [7] = c2FullRing ∧
      RingBuffer.queue (Session.OnPtyOutput c2FullRing [7]) = [1, 2, 3] := by
  refine ⟨by decide, rfl, by decide⟩

end Console3

namespace Console3

/-- C3: corrected.  The spec claims a failed read invokes the error
callback and the session exits with a synthetic code equal to the OS error.
`PtySession` has no error callback at all: `IoThreadProc` breaks out of
its loop on any read failure without inspecting the code, and the exit
callback fires only with the child's own exit code from
`GetExitCodeProcess` (and not at all while the child is still
`STILL_ACTIVE`), never with the OS error value. -/
theorem reader_error_exit_behavior (s : SessionLifecycle) (e : Nat)
    (rest : List ReadOutcome) (childExit : Option Nat) :
    ptyReaderLoop (ReadOutcome.err e :: rest) = ([], true) ∧
      sessionAfterReader s (ReadOutcome.err e :: rest) none = s ∧
      (∀ code, childExit = some code → code ≠ STILL_ACTIVE →
        sessionAfterReader s (ReadOutcome.err e :: rest) childExit =
          { state := SessionState.Exited, exitCode := code }) := by
  refine ⟨rfl, rfl, ?_⟩
  intro code hc hne
  subst hc
  show (match (ptyReaderRun (ReadOutcome.err e :: rest) (some code)).2 with
    | some c => Session.OnPtyExit s c
    | none => s) = { state := SessionState.Exited, exitCode := code }
  show (match (if code ≠ STILL_ACTIVE then some code else none) with
    | some c => Session.OnPtyExit s c
    | none => s) = { state := SessionState.Exited, exitCode := code }
  rw [if_pos hne]
  rfl

end Console3

namespace Console3

/-- C3 witness: a read error while the child has exited with code 7 ends
the loop and the session records exit code 7. -/
theorem reader_error_exit_behavior_witness :
    sessionAfterReader { state := SessionState.Running, exitCode := 0 }
        [ReadOutcome.err 5] (some 7) =
      { state := SessionState.Exited, exitCode := 7 } := by
  have h := reader_error_exit_behavior
    { state := SessionState.Running, exitCode := 0 } 5 [] (some 7)
  exact h.2.2 7 rfl (by decide)

end Console3

namespace Console3

/-- C3 counterexample: a read failure with OS error 5 while the child is
still running leaves the session `Running` with exit code 0 — it does not
transition to `Exited` with synthetic exit code 5 as the spec claims, and
no error callback exists to invoke. -/
theorem reader_error_counterexample :
    sessionAfterReader { state := SessionState.Running, exitCode := 0 }
        [ReadOutcome.err 5] none =
      { state := SessionState.Running, exitCode := 0 } ∧
    sessionAfterReader { state := SessionState.Running, exitCode := 0 }
        [ReadOutcome.err 5] none ≠
      { state := SessionState.Exited, exitCode := 5 } := by
  exact ⟨rfl, by decide⟩

end Console3

namespace Console3.RingBuffer

/-- C4: confirmed.  For any requested capacity (up to the largest
allocatable power of two) and any interleaving of `Write`/`Read` calls in
which each write fits into the free space at the moment it runs, the
concatenation of all bytes returned by reads is a prefix of the
concatenation of all bytes submitted to writes, and once the ring is
drained (`Size = 0`) the two concatenations are equal: FIFO order, nothing
lost, nothing invented. -/
theorem ring_fifo_order (req : Nat) (hreq : req ≤ 2 ^ 63) (ops : List RingOp)
    (hrw : rwOnly ops = true) (hv : validOps (init req) ops = true) :
    (∃ t, (runOps (init req) ops).2.2 ++ t = (runOps (init req) ops).2.1) ∧
      (Size (runOps (init req) ops).1 = 0 →
        (runOps (init req) ops).2.2 = (runOps (init req) ops).2.1) := by
  obtain ⟨n', hwf, hq⟩ :=
    runOps_fifo ops (init req) (Nat.clog 2 req) 0 (init_wf req hreq) hrw hv
  rw [queue_init, List.nil_append] at hq
  constructor
  · exact ⟨queue (runOps (init req) ops).1, hq⟩
  · intro hz
    have hlen : (queue (runOps (init req) ops).1).length = 0 := by
      rw [queue_length, hz]
    have hnil : queue (runOps (init req) ops).1 = [] :=
      List.eq_nil_of_length_eq_zero hlen
    rw [hnil, List.append_nil] at hq
    exact hq

end Console3.RingBuffer

namespace Console3.RingBuffer

/-- C4 witness: a concrete write/read interleaving on a capacity-8 ring. -/
theorem ring_fifo_order_witness :
    (∃ t, (runOps (init 8) opsC4).2.2 ++ t = (runOps (init 8) opsC4).2.1) ∧
      (Size (runOps (init 8) opsC4).1 = 0 →
        (runOps (init 8) opsC4).2.2 = (runOps (init 8) opsC4).2.1) :=
  ring_fifo_order 8 (by norm_num) opsC4 (by decide) (by decide)

end Console3.RingBuffer

namespace Console3.RingBuffer

/-- C5: confirmed.  After any operation sequence on a ring built with any
requested capacity, `Size() + Available() + 1` equals the requested
capacity rounded up to a power of two (the reserved slot accounts for the
`+ 1`). -/
theorem ring_size_available_invariant (req : Nat) (hreq : req ≤ 2 ^ 63)
    (ops : List RingOp) :
    Size (runOps (init req) ops).1 + Available (runOps (init req) ops).1 + 1
      = specRoundPow2 req := by
  obtain ⟨n', hwf, hcap⟩ := runOps_wf ops (init req) (Nat.clog 2 req) 0 (init_wf req hreq)
  have hsz := Size_eq _ _ _ hwf
  have hav := Available_eq _ _ _ hwf
  rw [hsz, hav]
  obtain ⟨hk, hcap2, -, -, hn, -⟩ := hwf
  have hspec : (runOps (init req) ops).1.capacity = specRoundPow2 req := by
    rw [hcap]
    show NextPowerOfTwo req = specRoundPow2 req
    exact NextPowerOfTwo_eq req hreq
  omega

end Console3.RingBuffer

namespace Console3.RingBuffer

/-- C5 witness: a sequence exercising all five operations on a ring
requested with capacity 5 (rounded up to 8). -/
theorem ring_size_available_invariant_witness :
    Size (runOps (init 5) opsC5).1 + Available (runOps (init 5) opsC5).1 + 1
      = specRoundPow2 5 :=
  ring_size_available_invariant 5 (by norm_num) opsC5

end Console3.RingBuffer

namespace Console3.TerminalBuffer

/-- C6: confirmed.  For positive target dimensions, `Resize(r, c)` on a
structurally well-formed grid yields exactly `r` screen rows, each of
exactly `c` cells, and a dirty bitmap of length `r` with every bit set. -/
theorem resize_shape_claim (tb : TerminalBuffer) (r c : Int) (h : WF tb)
    (hr : 0 < r) (hc : 0 < c) :
    (Resize tb r c).screen.length = r.toNat ∧
      (∀ row ∈ (Resize tb r c).screen, row.length = c.toNat) ∧
      (Resize tb r c).dirty.length = r.toNat ∧
      (∀ b ∈ (Resize tb r c).dirty, b = true) := by
  obtain ⟨h1, h2, h3, h4, -, -⟩ := Resize_shape tb r c h hr hc
  exact ⟨h1, h2, h3, h4⟩

end Console3.TerminalBuffer

namespace Console3.TerminalBuffer

/-- C6 witness: resizing a concrete 2x3 grid to 3x1. -/
theorem resize_shape_claim_witness :
    (Resize c6Buf 3 1).screen.length = (3 : Int).toNat ∧
      (∀ row ∈ (Resize c6Buf 3 1).screen, row.length = (1 : Int).toNat) ∧
      (Resize c6Buf 3 1).dirty.length = (3 : Int).toNat ∧
      (∀ b ∈ (Resize c6Buf 3 1).dirty, b = true) :=
  resize_shape_claim c6Buf 3 1 (by unfold WF; decide) (by decide) (by decide)

end Console3.TerminalBuffer

namespace Console3.TerminalBuffer

/-- C7: corrected.  For an out-of-range `(row, col)` pair the const
`GetCell` returns the shared sentinel cell and `SetCell`, `SetChar` and
`ClearCell` are silent no-ops, as the spec says; but the mutable
`Cell& GetCell` is not a silent no-op — `ValidateRow`/`ValidateCol` throw
`std::out_of_range` (modelled as `none`).  `ClearRange` is a silent no-op
only for an out-of-range row; with a valid row it clamps the column range
and still marks the row dirty, so it does not leave the buffer unchanged
for merely out-of-range columns. -/
theorem out_of_range_access_behavior (tb : TerminalBuffer) (row col : Int)
    (cell : Cell) (charCode : Nat) (width : Int)
    (hout : row < 0 ∨ tb.rows ≤ row ∨ col < 0 ∨ tb.cols ≤ col) :
    GetCell tb row col = s_emptyCell ∧
      GetCellRef tb row col = none ∧
      SetCell tb row col cell = tb ∧
      SetChar tb row col charCode width = tb ∧
      ClearCell tb row col = tb ∧
      ((row < 0 ∨ tb.rows ≤ row) → ∀ sc ec : Int, ClearRange tb row sc ec = tb) := by
  refine ⟨?_, ?_, ?_, ?_, ?_, ?_⟩
  · rw [GetCell, if_pos hout]
  · by_cases hr : row < 0 ∨ tb.rows ≤ row
    · rw [GetCellRef, if_pos hr]
    · have hc : col < 0 ∨ tb.cols ≤ col := by tauto
      rw [GetCellRef, if_neg hr, if_pos hc]
  · rw [SetCell, if_neg (by omega)]
  · rw [SetChar, if_neg (by omega)]
  · rw [ClearCell, if_neg (by omega)]
  · intro hrow sc ec
    rw [ClearRange, if_pos hrow]

end Console3.TerminalBuffer

namespace Console3.TerminalBuffer

/-- C7 witness: out-of-range accesses on a concrete 2x2 grid. -/
theorem out_of_range_access_behavior_witness :
    SetCell c7Buf 5 0 s_emptyCell = c7Buf ∧ GetCellRef c7Buf 5 0 = none ∧
      GetCell c7Buf 5 0 = s_emptyCell := by
  have h := out_of_range_access_behavior c7Buf 5 0 s_emptyCell 65 1 (by decide)
  exact ⟨h.2.2.1, h.2.1, h.1⟩

end Console3.TerminalBuffer

namespace Console3.TerminalBuffer

/-- C7 counterexample: the two divergences from the spec's sentence.  The
mutable accessor on a bad row does not silently no-op — it throws
(`none`); and `ClearRange` on a valid row with out-of-range columns does
not leave the buffer unchanged — it marks the row dirty. -/
theorem out_of_range_counterexample :
    GetCellRef c7Buf 5 0 = none ∧ ClearRange c7Buf 0 5 9 ≠ c7Buf := by
  exact ⟨by decide, by decide⟩

end Console3.TerminalBuffer

namespace Console3

/-- C9: confirmed.  For every arrow key press, with any combination of the
three modifiers, the translator emits `ESC [ A/B/C/D` when no modifier is
held and `ESC [ 1 ; M A/B/C/D` with `M = 1 + shift + 2*alt + 4*ctrl`
otherwise (`48 + M` is the ASCII digit); in particular Up with shift+ctrl
gives `ESC [ 1 ; 6 A`. -/
theorem arrow_key_translation : ∀ (ctrl alt shift : Bool),
    ∀ p ∈ [(VK_UP, 65), (VK_DOWN, 66), (VK_RIGHT, 67), (VK_LEFT, 68)],
      SendKeyToTerminal p.1 true ctrl alt shift =
        some (if ctrl = false ∧ alt = false ∧ shift = false
          then [27, 91, p.2]
          else [27, 91, 49, 59,
            48 + (1 + (if shift then 1 else 0) + (if alt then 2 else 0) +
              (if ctrl then 4 else 0)), p.2]) := by
  decide

end Console3

namespace Console3

/-- C9 witness: Up with shift+ctrl emits `ESC [ 1 ; 6 A`. -/
theorem arrow_key_translation_witness :
    SendKeyToTerminal VK_UP true true false true = some [27, 91, 49, 59, 54, 65] :=
  (arrow_key_translation true false true (VK_UP, 65) (by decide)).trans (by decide)

end Console3

namespace Console3

/-- C8 witness: the default configuration round-trips. -/
theorem serialize_roundtrip_witness :
    Deserialize (Serialize ({} : SessionConfig)) = ({} : SessionConfig) :=
  Deserialize_Serialize {} (by decide) (by decide) (by decide) (by decide)
    (by decide) (by decide) (by decide) (by decide) (by decide) (by decide)
    (by decide) (by decide) (by decide)

end Console3

namespace Console3

/-- C8 counterexample: a config with an empty shell string serializes to
`"shell": ""`, and deserialization substitutes the `cmd.exe` default, so
the round trip is not the identity on every `SessionConfig`. -/
theorem serialize_roundtrip_counterexample :
    Deserialize (Serialize c8Config) ≠ c8Config := by
  have hD : Deserialize (Serialize c8Config)
      = { c8Config with shell := [99, 109, 100, 46, 101, 120, 101] } := by
    unfold Deserialize
    rw [findString_Serialize_shell c8Config (by decide) (by decide) (by decide)
        (by decide) (by decide),
      findString_Serialize_args c8Config (by decide) (by decide) (by decide)
        (by decide) (by decide),
      findString_Serialize_workingDir c8Config (by decide) (by decide) (by decide)
        (by decide) (by decide),
      findString_Serialize_title c8Config (by decide) (by decide) (by decide)
        (by decide) (by decide),
      findString_Serialize_profileName c8Config (by decide) (by decide) (by decide)
        (by decide) (by decide),
      findInt_Serialize_rows c8Config (by decide) (by decide) (by decide)
        (by decide) (by decide),
      findInt_Serialize_cols c8Config (by decide) (by decide) (by decide)
        (by decide) (by decide),
      findInt_Serialize_scrollbackLines c8Config (by decide) (by decide) (by decide)
        (by decide) (by decide),
      findInt_Serialize_tabIndex c8Config (by decide) (by decide) (by decide)
        (by decide) (by decide)]
    rw [intToSizeT_ofNat c8Config.scrollbackLines (by decide)]
    simp only []
    rw [if_pos (show c8Config.shell = [] from rfl)]
    simp only []
    rw [if_neg (show ¬ c8Config.rows ≤ 0 from by decide)]
    simp only []
    rw [if_neg (show ¬ c8Config.cols ≤ 0 from by decide)]
    simp only []
    rw [if_neg (show ¬ c8Config.scrollbackLines = 0 from by decide)]
  intro h
  rw [hD] at h
  have h2 := congrArg SessionConfig.shell h
  simp only [c8Config] at h2
  exact absurd h2 (by decide)

end Console3

namespace Console3

/-- C10 witness: on a concrete 2x2 grid, the region text for rows 0..1
with column bounds 3 and 7 (out of range and ignored) equals the whole-row
extraction. -/
theorem GetRegionText_eq_rows_witness :
    1 ≤ c10Buf.rows ∧
      TerminalBuffer.GetRegionText c10Buf 0 3 1 7 =
        TerminalBuffer.regionTextRows c10Buf 0 1 :=
  ⟨by decide, TerminalBuffer.GetRegionText_eq_rows c10Buf (by decide) 0 3 1 7⟩

end Console3

